import Mathlib

/-!
Shallow embedding of the blackthunnus individual-based simulator
(`src/individual.cpp`, `src/individual.hpp`, `src/population.cpp`,
`src/population.hpp`) and proofs about its specification.

Conventions of the embedding:
* C++ `double` values are modelled as `ℚ`; `std::exp` is abstracted by an
  arbitrary parameter function `cexp : ℚ → ℚ` wherever survival rates are
  derived (the claims under study are about indexing, ordering and control
  flow, not about real-analytic properties of `exp`).
* `std::vector::at` (which throws `std::out_of_range`) is modelled by an
  `Option`-valued lookup `vecAt`; a `none` result corresponds to a thrown
  exception, which propagates through the simulation as a `none` run result.
* the pseudo-random engine (`URBG` seeded in the `Population` constructor,
  plus the `wtl`/`std` distribution front-ends `generate_canonical`,
  `wtl::choice`, `wtl::sample`, `poisson_distribution`,
  `negative_binomial_distribution`, `discrete_distribution`) is modelled as
  an abstract deterministic state machine `Gen G`: each primitive consumes
  the generator state and returns a value together with the new state.
  Properties of the library primitives that the surrounding code relies on
  (a chosen index is in range, `wtl::sample` returns `min k n` distinct
  indices below `n`) are packaged as the `LawfulGen` hypothesis.
* individuals are stored in an append-only arena (`List IndData`); arena
  indices play the role of `shared_ptr<Individual>` identities, so that
  sharing of parents (e.g. the single founder) is expressible.
-/

namespace Blackthunnus

/-- One `Individual` object (fields of `individual.hpp`): father and mother
references (arena indices, `none` = null `shared_ptr`), year of birth and
current location.  Only `location` is ever mutated after construction. -/
structure IndData where
  father : Option Nat
  mother : Option Nat
  birth_year : Nat
  location : Nat
deriving DecidableEq

/-- Junk value used for the (never exercised in well-formed states)
dereference of an out-of-range arena index. -/
def junkInd : IndData := ⟨none, none, 0, 0⟩

/-- Dereference an arena index (a `shared_ptr` access, always valid for
indices produced by the simulation itself). -/
def indOf (arena : List IndData) (i : Nat) : IndData := (arena[i]?).getD junkInd

/-- `std::vector::at`: `none` models a thrown `std::out_of_range`. -/
def vecAt (v : List α) (i : Nat) : Option α := v[i]?

/-- The abstract random engine interface: `URBG` state of type `G` plus the
distribution front-ends used by the simulator.  Every primitive is a
deterministic function of the state, mirroring the fact that a seeded
pseudo-random engine is deterministic. -/
structure Gen (G : Type) where
  generate_canonical : G → ℚ × G
  choice : Nat → G → Nat × G
  sample : Nat → Nat → G → Finset Nat × G
  poisson : ℚ → G → Nat × G
  negative_binomial : ℚ → ℚ → G → Nat × G
  discrete : List ℚ → G → Nat × G

/-- Contracts of the library distribution primitives that the simulator
relies on: `wtl::choice` over a nonempty range returns an index in range;
`wtl::sample n k` returns a set of `min k n` distinct indices below `n`
(the quota is clamped to the stratum size, it never fails);
`std::discrete_distribution` over a nonempty weight list returns an index
in range. -/
structure LawfulGen {G : Type} (gen : Gen G) : Prop where
  choice_lt : ∀ n g, 0 < n → (gen.choice n g).1 < n
  sample_mem : ∀ n k g j, j ∈ (gen.sample n k g).1 → j < n
  sample_card : ∀ n k g, (gen.sample n k g).1.card = min k n

/-! ## Individual-level functions (`individual.cpp`) -/

/-- `Individual::num_breeding_places()` (constexpr in `individual.hpp`). -/
def num_breeding_places : Nat := 2

/-- `Individual::is_in_breeding_place()`: `location_ < num_breeding_places()`. -/
def is_in_breeding_place (x : IndData) : Bool := x.location < num_breeding_places

/-- `constexpr uint_fast32_t max_age = 80u` in `set_dependent_static`. -/
def max_age : Nat := 80

/-- `constexpr uint_fast32_t max_qage = 4u * (max_age + 1u)`. -/
def max_qage : Nat := 4 * (max_age + 1)

/-- `elongate(v, n)`: append the last element until the size reaches `n`
(`individual.cpp`).  Padding an empty vector is undefined behaviour in the
C++ (`v->back()` on empty); modelled as a no-op. -/
def elongate (v : List α) (n : Nat) : List α :=
  match v.getLast? with
  | none => v
  | some a => v ++ List.replicate (n - v.length) a

/-- The pointwise survival-rate derivation of `set_dependent_static`:
`SURVIVAL_RATE_[i] = exp(-NATURAL_MORTALITY_[i] - FISHING_MORTALITY_[i])`,
with `cexp` abstracting `std::exp` on `double`. -/
def survival_base (cexp : ℚ → ℚ) (natural fishing : List ℚ) : List ℚ :=
  List.zipWith (fun n f => cexp (-n - f)) natural fishing

/-- `SURVIVAL_RATE_` as computed by `Individual::set_dependent_static`:
the pointwise `exp(-n-f)` table, then `elongate`d to `max_qage`. -/
def survival_rate (cexp : ℚ → ℚ) (natural fishing : List ℚ) : List ℚ :=
  elongate (survival_base cexp natural fishing) max_qage

/-- `MIGRATION_DISTRIBUTIONS` as computed by `set_dependent_static`: one
weight-row list per age taken from `MIGRATION_MATRICES_`, `elongate`d to
`max_age`. -/
def migration_dists (matrices : List (List (List ℚ))) : List (List (List ℚ)) :=
  elongate matrices max_age

/-- The age-quarter index of `Individual::has_survived`:
`4u * (year - birth_year_) + quarter`. -/
def qage (birth_year year quarter : Nat) : Nat := 4 * (year - birth_year) + quarter

/-- `Individual::has_survived(year, quarter, engine)`: draw
`generate_canonical`, look up `SURVIVAL_RATE_.at(qage)` (`none` = thrown
`std::out_of_range`), survive iff the draw is strictly below the rate. -/
def has_survived (survival : List ℚ) (birth_year year quarter : Nat)
    {G : Type} (gen : Gen G) (g : G) : Option (Bool × G) :=
  let ug := gen.generate_canonical g
  (vecAt survival (qage birth_year year quarter)).map (fun s => (decide (ug.1 < s), ug.2))

/-- `Individual::weight(year)`: `WEIGHT_FOR_AGE_[4 * (year - birth_year_)]`
(`individual.hpp`).  The C++ uses unchecked `operator[]`; an out-of-range
access is undefined behaviour, modelled as `none`. -/
def weight (weight_for_age : List ℚ) (birth_year year : Nat) : Option ℚ :=
  vecAt weight_for_age (4 * (year - birth_year))

/-- Static parameters of `Individual` (read once from JSON / command line)
together with the `std::exp` abstraction. -/
structure Params where
  cexp : ℚ → ℚ
  recruitment_coef : ℚ
  nbk : Option ℚ
  natural_mortality : List ℚ
  fishing_mortality : List ℚ
  weight_for_age : List ℚ
  migration_matrices : List (List (List ℚ))

/-- `Individual::num_locations()`: `MIGRATION_MATRICES[0].size()`. -/
def num_locations (P : Params) : Nat := (P.migration_matrices.getD 0 []).length

/-- Derived `SURVIVAL_RATE_` for a parameter set. -/
def survivalOf (P : Params) : List ℚ :=
  survival_rate P.cexp P.natural_mortality P.fishing_mortality

/-- Derived `MIGRATION_DISTRIBUTIONS` for a parameter set. -/
def distsOf (P : Params) : List (List (List ℚ)) :=
  migration_dists P.migration_matrices

/-- `Individual::recruitment(year, engine)`:
`mean = RECRUITMENT_COEF_ * weight(year)`, `prob = K / (mean + K)`; a
negative-binomial draw when `prob < 1.0`, otherwise a Poisson draw.
`P.nbk = none` models `NEGATIVE_BINOM_K_ = infinity` (the compiled-in
default): then `prob` is IEEE `inf/inf = NaN`, `NaN < 1.0` is false, and
the Poisson branch is taken. -/
def recruitment (P : Params) (birth_year year : Nat)
    {G : Type} (gen : Gen G) (g : G) : Option (Nat × G) :=
  (weight P.weight_for_age birth_year year).map (fun w =>
    let mean := P.recruitment_coef * w
    match P.nbk with
    | none => gen.poisson mean g
    | some k =>
      let prob := k / (mean + k)
      if prob < 1 then gen.negative_binomial k prob g else gen.poisson mean g)

/-! ## Population engine (`population.cpp`) -/

/-- Names of the phases of the yearly step sequence of `Population::run`;
used only by the ghost `trace` field below to state execution order. -/
inductive Phase where
  | reproduce : Phase
  | survive : Nat → Phase
  | sample : Phase
  | migrate : Phase
deriving DecidableEq

/-- The mutable state of a `Population`: the individual arena (identities of
all `Individual` objects ever created, append-only), the two live cohorts
`males_` and `females_` (lists of arena indices), the sample archive
`year_samples_` (association list capture-year ↦ sampled indices, in key
creation order, which coincides with increasing year), the demography table,
and a ghost `trace` recording which phase ran in which year (instrumentation
only: it mirrors exactly the sequence of phase calls). -/
structure PopState where
  arena : List IndData
  males : List Nat
  females : List Nat
  year_samples : List (Nat × List Nat)
  demography : List (Nat × List (List (Nat × Nat)))
  trace : List (Nat × Phase)
deriving DecidableEq

/-- `Population::Population(initial_size)`: one shared founder object
(null parents), then `initial_size / 2` males and the rest females, each
constructed as `Individual(founder, founder, 0)` — the same shared founder
is father and mother of every initial individual; their birth year is `0`
and their location is the mother's (= the founder's) location `0`. -/
def populationInit (initial_size : Nat) : PopState :=
  let half := initial_size / 2
  let rest := initial_size - half
  let child : IndData := ⟨some 0, some 0, 0, 0⟩
  { arena := junkInd :: List.replicate (half + rest) child
    males := List.range' 1 half
    females := List.range' (1 + half) rest
    year_samples := []
    demography := []
    trace := [] }

/-- Accumulator used while `Population::reproduce` collects the `boys` and
`girls` vectors (arena indices of the newborns, in creation order). -/
structure RepAcc where
  arena : List IndData
  boys : List Nat
  girls : List Nat
deriving DecidableEq

/-- The inner loop of `Population::reproduce` for one mother: create
`num_juveniles` newborns with the given father, mother, birth year and
location; each newborn's sex is a fair coin flip
(`generate_canonical < 0.5` ⇒ boy). -/
def brood {G : Type} (gen : Gen G) (year fa mo loc : Nat) :
    Nat → RepAcc → G → RepAcc × G
  | 0, acc, g => (acc, g)
  | n + 1, acc, g =>
    let ug := gen.generate_canonical g
    let idx := acc.arena.length
    let child : IndData := ⟨some fa, some mo, year, loc⟩
    let acc1 :=
      if ug.1 < 1/2
      then { acc with arena := acc.arena ++ [child], boys := acc.boys ++ [idx] }
      else { acc with arena := acc.arena ++ [child], girls := acc.girls ++ [idx] }
    brood gen year fa mo loc n acc1 ug.2

/-- The body of the `for (mother : females_)` loop of
`Population::reproduce`: skip mothers outside breeding places and mothers
with no co-located male; otherwise draw the recruitment count, choose one
father uniformly among the co-located males (`wtl::choice`), and create the
brood. -/
def reproduce_female (P : Params) {G : Type} (gen : Gen G) (year : Nat)
    (males_located : List (List Nat)) (acc : RepAcc) (i : Nat) (g : G) :
    Option (RepAcc × G) :=
  let mother := indOf acc.arena i
  if is_in_breeding_place mother then
    let potential_fathers := males_located.getD mother.location []
    if potential_fathers = [] then some (acc, g)
    else
      (recruitment P mother.birth_year year gen g).map (fun ng =>
        let jg := gen.choice potential_fathers.length ng.2
        let fa := potential_fathers.getD jg.1 0
        brood gen year fa i mother.location ng.1 acc jg.2)
  else some (acc, g)

/-- Iteration of `reproduce_female` over the `females_` vector. -/
def reproduce_loop (P : Params) {G : Type} (gen : Gen G) (year : Nat)
    (males_located : List (List Nat)) :
    List Nat → RepAcc → G → Option (RepAcc × G)
  | [], acc, g => some (acc, g)
  | i :: is, acc, g =>
    (reproduce_female P gen year males_located acc i g).bind (fun ag =>
      reproduce_loop P gen year males_located is ag.1 ag.2)

/-- `Population::reproduce()`: bucket the males by location, run the
per-mother loop, then copy `boys`/`girls` to the end of `males_`/`females_`.
Appends its ghost trace event. -/
def reproduce (P : Params) {G : Type} (gen : Gen G) (year : Nat)
    (st : PopState) (g : G) : Option (PopState × G) :=
  let males_located := (List.range (num_locations P)).map
    (fun loc => st.males.filter (fun i => (indOf st.arena i).location = loc))
  (reproduce_loop P gen year males_located st.females ⟨st.arena, [], []⟩ g).map
    (fun ag =>
      ({ st with
          arena := ag.1.arena
          males := st.males ++ ag.1.boys
          females := st.females ++ ag.1.girls
          trace := st.trace ++ [(year, Phase.reproduce)] }, ag.2))

/-- The `std::copy_if` of `Population::survive` over one cohort: keep the
individuals whose `has_survived(year_, quarter)` check passes, drawing one
canonical value per individual in cohort order. -/
def surviveList (survival : List ℚ) (year quarter : Nat) {G : Type}
    (gen : Gen G) (arena : List IndData) :
    List Nat → G → Option (List Nat × G)
  | [], g => some ([], g)
  | i :: is, g =>
    (has_survived survival (indOf arena i).birth_year year quarter gen g).bind
      (fun bg => (surviveList survival year quarter gen arena is bg.2).map
        (fun rg => ((if bg.1 then i :: rg.1 else rg.1), rg.2)))

/-- `Population::survive(quarter)`: filter `males_` then `females_`.
Appends its ghost trace event. -/
def survive (P : Params) {G : Type} (gen : Gen G) (year quarter : Nat)
    (st : PopState) (g : G) : Option (PopState × G) :=
  (surviveList (survivalOf P) year quarter gen st.arena st.males g).bind (fun mg =>
    (surviveList (survivalOf P) year quarter gen st.arena st.females mg.2).map (fun fg =>
      ({ st with
          males := mg.1
          females := fg.1
          trace := st.trace ++ [(year, Phase.survive quarter)] }, fg.2)))

/-- `Individual::migrate(year, engine)`:
`location_ = MIGRATION_DISTRIBUTIONS.at(year - birth_year_)[location_](engine)`.
The outer `.at` may throw (`none`); the inner `operator[]` out of range is
undefined behaviour, also modelled as `none`. -/
def migrateInd (dists : List (List (List ℚ))) (year : Nat) {G : Type}
    (gen : Gen G) (arena : List IndData) (i : Nat) (g : G) :
    Option (List IndData × G) :=
  let ind := indOf arena i
  (vecAt dists (year - ind.birth_year)).bind (fun rows =>
    (vecAt rows ind.location).map (fun row =>
      let lg := gen.discrete row g
      (arena.set i { ind with location := lg.1 }, lg.2)))

/-- Iteration of `migrateInd` over one cohort. -/
def migrateList (dists : List (List (List ℚ))) (year : Nat) {G : Type}
    (gen : Gen G) : List Nat → List IndData → G → Option (List IndData × G)
  | [], arena, g => some (arena, g)
  | i :: is, arena, g =>
    (migrateInd dists year gen arena i g).bind (fun ag =>
      migrateList dists year gen is ag.1 ag.2)

/-- `Population::migrate()`: update the location of every male, then every
female; no removals.  Appends its ghost trace event. -/
def migratePhase (P : Params) {G : Type} (gen : Gen G) (year : Nat)
    (st : PopState) (g : G) : Option (PopState × G) :=
  (migrateList (distsOf P) year gen st.males st.arena g).bind (fun ag =>
    (migrateList (distsOf P) year gen st.females ag.1 ag.2).map (fun bg =>
      ({ st with
          arena := bg.1
          trace := st.trace ++ [(year, Phase.migrate)] }, bg.2)))

/-- `static_cast<size_t>(std::round(rate * n_adults))` for a non-negative
argument: round half away from zero, i.e. `⌊q + 1/2⌋`. -/
def cround (q : ℚ) : Nat := (q + 1/2).floor.toNat

/-- The `sort` lambda of `Population::sample`: draw
`wtl::sample(indices.size(), k)` and split the stratum, in stratum order,
into the unchosen (appended to `survivors`) and the chosen (appended to
`samples`).  Returns `(unchosen, chosen, g')`. -/
def pickStratum {G : Type} (gen : Gen G) (indices : List Nat) (k : Nat)
    (g : G) : List Nat × List Nat × G :=
  let cg := gen.sample indices.length k g
  (((List.range indices.length).filter (fun i => ¬ i ∈ cg.1)).map
      (fun i => indices.getD i 0),
   ((List.range indices.length).filter (fun i => i ∈ cg.1)).map
      (fun i => indices.getD i 0),
   cg.2)

/-- The adult stratum of a cohort at a breeding location: in a breeding
place and born strictly before the current year. -/
def isAdultAt (arena : List IndData) (year loc : Nat) (i : Nat) : Bool :=
  is_in_breeding_place (indOf arena i) && (indOf arena i).location = loc
    && ¬ (indOf arena i).birth_year = year

/-- The juvenile stratum of a cohort at a breeding location: in a breeding
place and born in the current year. -/
def isJuvenileAt (arena : List IndData) (year loc : Nat) (i : Nat) : Bool :=
  is_in_breeding_place (indOf arena i) && (indOf arena i).location = loc
    && (indOf arena i).birth_year = year

/-- The `impl` lambda of `Population::sample` on one cohort: the
non-breeding-place individuals go straight to `survivors` (in cohort
order); then for each breeding location the adult stratum is sampled with
quota `round(rate * n_adults)` and the juvenile stratum with quota twice
that, adults first.  Returns `(survivors, samples, g')`. -/
def sampleCohort {G : Type} (gen : Gen G) (rate : ℚ) (year : Nat)
    (arena : List IndData) (cohort : List Nat) (g : G) :
    List Nat × List Nat × G :=
  let nonBreeding := cohort.filter (fun i => ¬ is_in_breeding_place (indOf arena i))
  let adults := fun loc => cohort.filter (isAdultAt arena year loc)
  let juveniles := fun loc => cohort.filter (isJuvenileAt arena year loc)
  let k0 := cround (rate * (adults 0).length)
  let p0 := pickStratum gen (adults 0) k0 g
  let q0 := pickStratum gen (juveniles 0) (2 * k0) p0.2.2
  let k1 := cround (rate * (adults 1).length)
  let p1 := pickStratum gen (adults 1) k1 q0.2.2
  let q1 := pickStratum gen (juveniles 1) (2 * k1) p1.2.2
  (nonBreeding ++ p0.1 ++ q0.1 ++ p1.1 ++ q1.1,
   p0.2.1 ++ q0.2.1 ++ p1.2.1 ++ q1.2.1,
   q1.2.2)

/-- `Population::sample(rate)`: run the cohort sampler on `males_`, then on
`females_`, replace the cohorts by their survivors and append the combined
samples to `year_samples_[year_]` (`std::map::operator[]` creates the entry
for the current year even when the sample list is empty).  Appends its
ghost trace event. -/
def samplePhase {G : Type} (gen : Gen G) (rate : ℚ) (year : Nat)
    (st : PopState) (g : G) : PopState × G :=
  let m := sampleCohort gen rate year st.arena st.males g
  let f := sampleCohort gen rate year st.arena st.females m.2.2
  ({ st with
      males := m.1
      females := f.1
      year_samples := st.year_samples ++ [(year, m.2.1 ++ f.2.1)]
      trace := st.trace ++ [(year, Phase.sample)] }, f.2.2)

/-- Modelled from the spec: the per-year demography record — "aggregate
per-year/per-location/per-age-class counts".  `Population::append_demography`
is declared in `population.hpp` but its body is not under `src/`; the
record is a pure count over the live cohorts: for each location, for each
attainable age, the number of live individuals of that age there. -/
def demography_record (P : Params) (year : Nat) (st : PopState) :
    List (List (Nat × Nat)) :=
  (List.range (num_locations P)).map (fun loc =>
    (List.range (year + 1)).map (fun a =>
      (a, ((st.males ++ st.females).filter (fun i =>
        (indOf st.arena i).location = loc ∧
          year - (indOf st.arena i).birth_year = a)).length)))

/-- Modelled from the spec: append the current demography record. -/
def append_demography (P : Params) (year : Nat) (st : PopState) : PopState :=
  { st with demography := st.demography ++ [(year, demography_record P year st)] }

/-- `uint_fast32_t` subtraction (64-bit on the target platform):
`simulating_duration - recording_duration` wraps modulo `2^64`. -/
def usub64 (a b : Nat) : Nat := (a + (2 ^ 64 - b % 2 ^ 64)) % 2 ^ 64

/-- One iteration of the loop of `Population::run`: `reproduce()`, then
`survive(0..3)`, then `sample(rate)` when `year_ >= recording_start`, then
`migrate()`; finally the (spec-modelled) demography append. -/
def yearStep (P : Params) {G : Type} (gen : Gen G) (rate : ℚ)
    (recording_start : Nat) (sg : PopState × G) (year : Nat) :
    Option (PopState × G) :=
  (reproduce P gen year sg.1 sg.2).bind (fun a =>
    (survive P gen year 0 a.1 a.2).bind (fun b =>
      (survive P gen year 1 b.1 b.2).bind (fun c =>
        (survive P gen year 2 c.1 c.2).bind (fun d =>
          (survive P gen year 3 d.1 d.2).bind (fun e =>
            let f := if recording_start ≤ year
              then samplePhase gen rate year e.1 e.2 else e
            (migratePhase P gen year f.1 f.2).map (fun h =>
              (append_demography P year h.1, h.2)))))))

/-- The year loop of `Population::run` over an explicit list of years. -/
def runYears (P : Params) {G : Type} (gen : Gen G) (rate : ℚ)
    (recording_start : Nat) : List Nat → PopState × G → Option (PopState × G)
  | [], sg => some sg
  | y :: ys, sg =>
    (yearStep P gen rate recording_start sg y).bind
      (runYears P gen rate recording_start ys)

/-- `Population::run(simulating_duration, sample_rate, recording_duration)`:
`recording_start = simulating_duration - recording_duration` (unsigned),
then the yearly loop `for (year_ = 4u; year_ < simulating_duration; ++year_)`. -/
def run (P : Params) {G : Type} (gen : Gen G) (simulating_duration : Nat)
    (sample_rate : ℚ) (recording_duration : Nat) (st : PopState) (g : G) :
    Option (PopState × G) :=
  runYears P gen sample_rate (usub64 simulating_duration recording_duration)
    (List.range' 4 (simulating_duration - 4)) (st, g)

/-! ## Ancestry graph reconstruction (`trace_back` / `write_sample_family`) -/

/-- A well-formed individual arena: parent references always point to
individuals created strictly earlier (the `shared_ptr` ancestry graph is
acyclic because a parent exists before its child, and founders have no
parent references). -/
structure Arena where
  nodes : List IndData
  wf : ∀ i (h : i < nodes.length),
    (∀ j ∈ (nodes.get ⟨i, h⟩).father, j < i) ∧
      (∀ j ∈ (nodes.get ⟨i, h⟩).mother, j < i)

/-- Modelled from the spec: `Individual::trace_back` (declared in
`individual.hpp` and called from `Population::write_sample_family`, body
not under `src/`) — "inserts `individual` into a visited set keyed by
stable identity; if newly inserted and `individual` has a father reference,
recurses into father then mother."  Returns the updated visited set
together with a ghost log of the nodes actually inserted, in insertion
order.  Termination is by the arena well-formedness: parents have strictly
smaller indices. -/
def traceBack (A : Arena) (i : Nat) (hi : i < A.nodes.length)
    (visited : Finset Nat) : Finset Nat × List Nat :=
  if i ∈ visited then (visited, [])
  else
    match hf : (A.nodes.get ⟨i, hi⟩).father with
    | none => (insert i visited, [i])
    | some fa =>
      have hfa : fa < i := (A.wf i hi).1 fa (by rw [hf]; rfl)
      let r1 := traceBack A fa (hfa.trans hi) (insert i visited)
      match hm : (A.nodes.get ⟨i, hi⟩).mother with
      | none => (r1.1, i :: r1.2)
      | some mo =>
        have hmo : mo < i := (A.wf i hi).2 mo (by rw [hm]; rfl)
        let r2 := traceBack A mo (hmo.trans hi) r1.1
        (r2.1, i :: (r1.2 ++ r2.2))
termination_by i

/-- The loop of `Population::write_sample_family`: run `trace_back` from
every archived sample into one shared `nodes` map, threading the visited
set and the ghost visit log. -/
def traceAll (A : Arena) : List (Fin A.nodes.length) →
    Finset Nat × List Nat → Finset Nat × List Nat
  | [], vl => vl
  | s :: ss, vl =>
    traceAll A ss ((traceBack A s.val s.isLt vl.1).1,
      vl.2 ++ (traceBack A s.val s.isLt vl.1).2)

/-- A visited set closed under parent references (conditionally on the
father reference, mirroring the spec's father-guarded recursion). -/
def AncClosed (A : Arena) (v : Finset Nat) : Prop :=
  ∀ x ∈ v, ∃ hx : x < A.nodes.length,
    ∀ fa ∈ (A.nodes.get ⟨x, hx⟩).father, fa ∈ v ∧
      ∀ mo ∈ (A.nodes.get ⟨x, hx⟩).mother, mo ∈ v

/-! ## Concrete generators used to instantiate claims -/

/-- A trivial deterministic engine over the unit state: every draw returns
`0` (resp. the empty index set). -/
def unitGen : Gen Unit :=
  ⟨fun g => (0, g), fun _ g => (0, g), fun _ _ g => (∅, g),
   fun _ g => (0, g), fun _ _ g => (0, g), fun _ g => (0, g)⟩

/-- A deterministic engine whose `sample` primitive returns the first
`min k n` indices. -/
def rangeGen : Gen Unit :=
  ⟨fun g => (0, g), fun _ g => (0, g), fun n k g => (Finset.range (min k n), g),
   fun _ g => (0, g), fun _ _ g => (0, g), fun _ g => (0, g)⟩

theorem rangeGen_lawful : LawfulGen rangeGen := by
  refine ⟨fun n g h => h, fun n k g j hj => ?_, fun n k g => by simp [rangeGen]⟩
  simp only [rangeGen, Finset.mem_range] at hj
  omega

/-! ## Lookup lemmas for the `elongate`d parameter tables -/

theorem elongate_length (v : List α) (n : Nat) (hv : v ≠ []) :
    (elongate v n).length = max v.length n := by
  unfold elongate
  rw [List.getLast?_eq_getLast v hv]
  simp
  omega

theorem vecAt_elongate_lt (v : List α) (n i : Nat) (hi : i < v.length) :
    vecAt (elongate v n) i = vecAt v i := by
  unfold elongate
  cases h : v.getLast? with
  | none => rfl
  | some a => simp [vecAt, List.getElem?_append, hi]

theorem vecAt_elongate_pad (v : List α) (n i : Nat) (hv : v ≠ [])
    (h1 : v.length ≤ i) (h2 : i < max v.length n) :
    vecAt (elongate v n) i = v.getLast? := by
  unfold elongate
  rw [List.getLast?_eq_getLast v hv]
  simp only [vecAt]
  rw [List.getElem?_append_right h1]
  rw [List.getElem?_replicate]
  have : i - v.length < n - v.length := by omega
  simp [this]

theorem vecAt_elongate_none (v : List α) (n i : Nat)
    (h : max v.length n ≤ i) : vecAt (elongate v n) i = none := by
  unfold elongate
  cases hl : v.getLast? with
  | none =>
    have : v = [] := by
      cases v with
      | nil => rfl
      | cons a l => simp [List.getLast?_eq_getLast] at hl
    subst this
    rfl
  | some a =>
    simp only [vecAt]
    apply List.getElem?_eq_none
    simp
    omega

theorem survival_base_length (cexp : ℚ → ℚ) (natural fishing : List ℚ)
    (h : natural.length = fishing.length) :
    (survival_base cexp natural fishing).length = natural.length := by
  simp [survival_base, h]

/-! ## Theorems -/

/-- C10: for every `initial_size` `n`, the `Population` constructor creates
exactly `⌊n/2⌋` males and `n - ⌊n/2⌋` females (together exactly `n`
individuals), every initial individual has the one shared founder
(arena index `0`) as both father and mother, and the founder itself is the
only parentless individual. -/
theorem claim_C10 (n : Nat) :
    (populationInit n).males.length = n / 2 ∧
    (populationInit n).females.length = n - n / 2 ∧
    (populationInit n).males.length + (populationInit n).females.length = n ∧
    (∀ i ∈ (populationInit n).males ++ (populationInit n).females,
      (indOf (populationInit n).arena i).father = some 0 ∧
        (indOf (populationInit n).arena i).mother = some 0) ∧
    (indOf (populationInit n).arena 0).father = none ∧
    (indOf (populationInit n).arena 0).mother = none := by
  refine ⟨?_, ?_, ?_, ?_, ?_, ?_⟩
  · simp [populationInit]
  · simp [populationInit]
  · simp [populationInit]
    omega
  · intro i hi
    have hmem : 1 ≤ i ∧ i < 1 + (n / 2 + (n - n / 2)) := by
      rcases List.mem_append.mp hi with h | h
      · have := List.mem_range'.mp h
        simp only [populationInit] at this ⊢
        omega
      · have := List.mem_range'.mp h
        simp only [populationInit] at this ⊢
        omega
    obtain ⟨h1, h2⟩ := hmem
    obtain ⟨j, rfl⟩ : ∃ j, i = j + 1 := ⟨i - 1, by omega⟩
    have hj : j < n / 2 + (n - n / 2) := by omega
    simp [populationInit, indOf, List.getElem?_replicate, hj, junkInd]
  · simp [populationInit, indOf, junkInd]
  · simp [populationInit, indOf, junkInd]

/-- C4 (amended): the age-quarter lookup of `has_survived` and the age
lookup of `migrate` are clamped to the last tabulated value — but only for
indices below the compiled-in padding bounds (`max_qage = 324` quarter-ages
for the survival table, `max_age = 80` ages for the migration tables);
`vector::at` at an index at or beyond the padded length raises
`std::out_of_range` (`none`) instead of clamping. -/
theorem claim_C4_amended (cexp : ℚ → ℚ) (natural fishing : List ℚ)
    (matrices : List (List (List ℚ)))
    (hnat : natural ≠ []) (hlen : natural.length = fishing.length)
    (hmat : matrices ≠ []) :
    (∀ i, natural.length ≤ i → i < max natural.length max_qage →
      vecAt (survival_rate cexp natural fishing) i =
        (survival_base cexp natural fishing).getLast?) ∧
    (∀ i, max natural.length max_qage ≤ i →
      vecAt (survival_rate cexp natural fishing) i = none) ∧
    (∀ a, matrices.length ≤ a → a < max matrices.length max_age →
      vecAt (migration_dists matrices) a = matrices.getLast?) ∧
    (∀ a, max matrices.length max_age ≤ a →
      vecAt (migration_dists matrices) a = none) := by
  have hbase : (survival_base cexp natural fishing).length = natural.length :=
    survival_base_length cexp natural fishing hlen
  have hbne : survival_base cexp natural fishing ≠ [] := by
    rw [← List.length_pos, hbase, List.length_pos]
    exact hnat
  refine ⟨fun i h1 h2 => ?_, fun i h => ?_, fun a h1 h2 => ?_, fun a h => ?_⟩
  · rw [survival_rate, vecAt_elongate_pad _ _ _ hbne (by omega) (by omega)]
  · rw [survival_rate, vecAt_elongate_none]
    omega
  · rw [migration_dists, vecAt_elongate_pad _ _ _ hmat h1 h2]
  · rw [migration_dists, vecAt_elongate_none _ _ _ h]

set_option maxRecDepth 8192 in
/-- C4 counterexample: with a one-entry mortality table, an individual born
in year 0 evaluated at year 81 (quarter-age index `324 = max_qage`) makes
`has_survived` throw (`none`) rather than reuse the last tabulated value;
with a single migration matrix, `migrate` at age 80 throws likewise. -/
theorem claim_C4_counterexample :
    has_survived (survival_rate (fun q => q) [1] [1]) 0 81 0 unitGen () = none ∧
    migrateInd (migration_dists [[[(1:ℚ)]]]) 80 unitGen [⟨none, none, 0, 0⟩] 0 ()
      = none :=
  ⟨rfl, rfl⟩

/-- Witness for C4 (amended) with one-entry tables: quarter-age 5 is served
by the padded last survival value, age 3 by the padded last migration row. -/
theorem claim_C4_witness :
    vecAt (survival_rate (fun q => q) [1] [1]) 5 =
      (survival_base (fun q => q) [1] [1]).getLast? ∧
    vecAt (migration_dists [[[(1:ℚ)]]]) 3 =
      ([[[(1:ℚ)]]] : List (List (List ℚ))).getLast? := by
  have h := claim_C4_amended (fun q => q) [1] [1] [[[(1:ℚ)]]]
    (by decide) (by decide) (by decide)
  exact ⟨h.1 5 (by decide) (by decide), h.2.2.1 3 (by decide) (by decide)⟩

/-- C5: `has_survived(year, quarter)` computes the age-quarter index
`4·(year − birth_year) + quarter`, looks up the survival probability
`exp(−(natural + fishing))` at that (tabulated) index, and returns `true`
iff the uniform draw is strictly below it.  (`cexp` abstracts `std::exp`;
the boundary behaviour beyond the table is the subject of C4.) -/
theorem claim_C5 (cexp : ℚ → ℚ) (natural fishing : List ℚ)
    (b y q : Nat) {G : Type} (gen : Gen G) (g : G)
    (hlen : natural.length = fishing.length)
    (hq : qage b y q < natural.length) :
    qage b y q = 4 * (y - b) + q ∧
    has_survived (survival_rate cexp natural fishing) b y q gen g =
      some (decide ((gen.generate_canonical g).1 <
          cexp (-(natural.getD (qage b y q) 0) - fishing.getD (qage b y q) 0)),
        (gen.generate_canonical g).2) := by
  refine ⟨rfl, ?_⟩
  have hq' : qage b y q < fishing.length := hlen ▸ hq
  unfold has_survived
  rw [survival_rate, vecAt_elongate_lt]
  · have ha : natural[qage b y q]? = some (natural.getD (qage b y q) 0) := by
      simp [List.getD_eq_getElem?_getD, List.getElem?_eq_getElem hq]
    have hb : fishing[qage b y q]? = some (fishing.getD (qage b y q) 0) := by
      simp [List.getD_eq_getElem?_getD, List.getElem?_eq_getElem hq']
    simp only [vecAt, survival_base, List.getElem?_zipWith', ha, hb]
    rfl
  · rw [survival_base_length cexp natural fishing hlen]
    exact hq

/-- Witness for C5: one-entry tables, an individual of quarter-age 0. -/
theorem claim_C5_witness :
    qage 0 0 0 = 4 * (0 - 0) + 0 ∧
    has_survived (survival_rate (fun q => q) [1] [2]) 0 0 0 unitGen () =
      some (decide ((0:ℚ) < -(([1] : List ℚ).getD 0 0) - ([2] : List ℚ).getD 0 0),
        ()) :=
  claim_C5 (fun q => q) [1] [2] 0 0 0 unitGen () (by decide) (by decide)

/-- C6 (amended): `recruitment` computes `mean = RECRUITMENT_COEF · weight(year)`
and `prob = k/(mean + k)`; it draws negative-binomial`(k, prob)` when `k` is
finite *and* `prob < 1` (with `k > 0` this means `mean > 0`), and draws
Poisson`(mean)` when `k` is infinite (`nbk = none`, the `prob = NaN` case)
*or* when `prob ≥ 1` (e.g. `mean = 0`).  The negative-binomial
parametrization indeed has mean `k(1−prob)/prob = mean`. -/
theorem claim_C6_amended (P : Params) (b y : Nat) {G : Type} (gen : Gen G)
    (g : G) (w : ℚ) (hw : weight P.weight_for_age b y = some w) :
    (P.nbk = none →
      recruitment P b y gen g = some (gen.poisson (P.recruitment_coef * w) g)) ∧
    (∀ k, P.nbk = some k → k / (P.recruitment_coef * w + k) < 1 →
      recruitment P b y gen g =
        some (gen.negative_binomial k (k / (P.recruitment_coef * w + k)) g)) ∧
    (∀ k, P.nbk = some k → ¬ k / (P.recruitment_coef * w + k) < 1 →
      recruitment P b y gen g = some (gen.poisson (P.recruitment_coef * w) g)) ∧
    (∀ k, P.nbk = some k → 0 < k → 0 < P.recruitment_coef * w →
      k / (P.recruitment_coef * w + k) < 1 ∧
        k * (1 - k / (P.recruitment_coef * w + k)) /
            (k / (P.recruitment_coef * w + k)) = P.recruitment_coef * w) := by
  refine ⟨?_, ?_, ?_, ?_⟩
  · intro hk
    unfold recruitment
    rw [hw, hk]
    rfl
  · intro k hk hp
    unfold recruitment
    rw [hw, hk]
    show some (if k / (P.recruitment_coef * w + k) < 1
        then gen.negative_binomial k (k / (P.recruitment_coef * w + k)) g
        else gen.poisson (P.recruitment_coef * w) g) =
      some (gen.negative_binomial k (k / (P.recruitment_coef * w + k)) g)
    rw [if_pos hp]
  · intro k hk hp
    unfold recruitment
    rw [hw, hk]
    show some (if k / (P.recruitment_coef * w + k) < 1
        then gen.negative_binomial k (k / (P.recruitment_coef * w + k)) g
        else gen.poisson (P.recruitment_coef * w) g) =
      some (gen.poisson (P.recruitment_coef * w) g)
    rw [if_neg hp]
  · intro k hk hk0 hm
    have hmk : 0 < P.recruitment_coef * w + k := by linarith
    constructor
    · rw [div_lt_one hmk]
      linarith
    · have hne : P.recruitment_coef * w + k ≠ 0 := ne_of_gt hmk
      have hkne : k ≠ 0 := ne_of_gt hk0
      field_simp

/-- Parameter set with `RECRUITMENT_COEF = 2`, finite overdispersion `k = 1`
and a one-entry weight table `[3]` (so `mean = 6 > 0`). -/
def posMeanParams : Params := ⟨fun q => q, 2, some 1, [], [], [3], []⟩

/-- Witness for C6 (amended) on `posMeanParams`. -/
theorem claim_C6_witness :
    (posMeanParams.nbk = none →
      recruitment posMeanParams 0 0 unitGen () =
        some (unitGen.poisson (2 * 3) ())) ∧
    (∀ k, posMeanParams.nbk = some k → k / (2 * 3 + k) < 1 →
      recruitment posMeanParams 0 0 unitGen () =
        some (unitGen.negative_binomial k (k / (2 * 3 + k)) ())) ∧
    (∀ k, posMeanParams.nbk = some k → ¬ k / (2 * 3 + k) < 1 →
      recruitment posMeanParams 0 0 unitGen () =
        some (unitGen.poisson (2 * 3) ())) ∧
    (∀ k, posMeanParams.nbk = some k → 0 < k → 0 < (2:ℚ) * 3 →
      k / (2 * 3 + k) < 1 ∧
        k * (1 - k / (2 * 3 + k)) / (k / (2 * 3 + k)) = 2 * 3) :=
  claim_C6_amended posMeanParams 0 0 unitGen () 3 rfl

/-- A generator whose Poisson draws return `0` while its negative-binomial
draws return `1`, so the two branches of `recruitment` are distinguishable. -/
def nbGen : Gen Unit :=
  ⟨fun g => (0, g), fun _ g => (0, g), fun _ _ g => (∅, g),
   fun _ g => (0, g), fun _ _ g => (1, g), fun _ g => (0, g)⟩

/-- Parameter set with `RECRUITMENT_COEF = 0` and finite `k = 1`:
`mean = 0`, so `prob = k/(mean+k) = 1`. -/
def zeroMeanParams : Params := ⟨fun q => q, 0, some 1, [], [], [1], []⟩

/-- C6 counterexample: with finite `k = 1` but `mean = 0` (`prob = 1`), the
code draws from the Poisson branch (returning `0` under `nbGen`), not the
negative-binomial draw the claim requires (which would return `1`). -/
theorem claim_C6_counterexample :
    recruitment zeroMeanParams 0 0 nbGen () = some (0, ()) ∧
    nbGen.negative_binomial 1 ((1:ℚ) / (0 * 1 + 1)) () = (1, ()) ∧
    recruitment zeroMeanParams 0 0 nbGen () ≠
      some (nbGen.negative_binomial 1 ((1:ℚ) / (0 * 1 + 1)) ()) := by
  have h1 : recruitment zeroMeanParams 0 0 nbGen () = some (0, ()) := by
    unfold recruitment
    rw [show weight zeroMeanParams.weight_for_age 0 0 = some 1 from rfl]
    show some (if (1:ℚ) / (0 * 1 + 1) < 1
        then nbGen.negative_binomial 1 ((1:ℚ) / (0 * 1 + 1)) ()
        else nbGen.poisson (0 * 1) ()) = some (0, ())
    rw [if_neg (by norm_num)]
    rfl
  refine ⟨h1, rfl, ?_⟩
  rw [h1]
  intro h
  exact absurd (Prod.mk.injEq .. ▸ (Option.some.injEq .. ▸ h)) (by simp)

/-- C2: for a fixed parameter set and a fixed engine state (the seed), the
simulation is a deterministic function of its arguments: two executions of
`run` with identical arguments produce identical sample archives
(`year_samples_`) and identical demography tables.  (In the code the seed
is the engine state created in the `Population` constructor; every
stochastic operation draws from that single engine, threaded through the
fixed phase order, and nothing else in `run` is a source of
nondeterminism.) -/
theorem claim_C2 (P : Params) {G : Type} (gen : Gen G) (d : Nat) (rate : ℚ)
    (r : Nat) (st st' : PopState) (g g' : G) (hst : st = st') (hg : g = g') :
    (run P gen d rate r st g).map (fun x => (x.1.year_samples, x.1.demography))
      = (run P gen d rate r st' g').map
          (fun x => (x.1.year_samples, x.1.demography)) := by
  rw [hst, hg]

/-- Witness for C2 at a concrete parameter set, population and seed. -/
theorem claim_C2_witness :
    (run ⟨fun q => q, 0, none, [1], [1], [1], [[[1]]]⟩ unitGen 5 0 1
        (populationInit 0) ()).map
        (fun x => (x.1.year_samples, x.1.demography))
      = (run ⟨fun q => q, 0, none, [1], [1], [1], [[[1]]]⟩ unitGen 5 0 1
        (populationInit 0) ()).map
          (fun x => (x.1.year_samples, x.1.demography)) :=
  claim_C2 ⟨fun q => q, 0, none, [1], [1], [1], [[[1]]]⟩ unitGen 5 0 1
    (populationInit 0) (populationInit 0) () () rfl rfl

/-- The list of the next `n` `generate_canonical` draws together with the
final generator state. -/
def canonN {G : Type} (gen : Gen G) : Nat → G → List ℚ × G
  | 0, g => ([], g)
  | n + 1, g =>
    let ug := gen.generate_canonical g
    let rest := canonN gen n ug.2
    (ug.1 :: rest.1, rest.2)

/-- Splitting the image of a filtered `range (n+1)` at its head element
(positive case: the head passes the filter). -/
theorem filter_range_succ_map_pos (p : Nat → Bool) (L n : Nat) (h0 : p 0 = true) :
    ((List.range (n + 1)).filter p).map (fun j => L + j) =
      L :: ((List.range n).filter (fun j => p (j + 1))).map (fun j => L + 1 + j) := by
  have hfun : ((fun j => L + j) ∘ Nat.succ) = fun j => L + 1 + j := by
    funext j
    simp only [Function.comp]
    omega
  rw [List.range_succ_eq_map, List.filter_cons, h0, if_pos rfl]
  simp only [List.map_cons, Nat.add_zero, List.filter_map, List.map_map, hfun]
  rfl

/-- Splitting the image of a filtered `range (n+1)` at its head element
(negative case: the head fails the filter). -/
theorem filter_range_succ_map_neg (p : Nat → Bool) (L n : Nat) (h0 : p 0 = false) :
    ((List.range (n + 1)).filter p).map (fun j => L + j) =
      ((List.range n).filter (fun j => p (j + 1))).map (fun j => L + 1 + j) := by
  have hfun : ((fun j => L + j) ∘ Nat.succ) = fun j => L + 1 + j := by
    funext j
    simp only [Function.comp]
    omega
  rw [List.range_succ_eq_map, List.filter_cons, h0,
    if_neg (by simp), List.filter_map, List.map_map, hfun]
  rfl

/-- Unfolding description of `brood`: it appends exactly `n` arena entries,
all equal to `⟨some fa, some mo, year, loc⟩`; the `j`-th newborn goes to
`boys` iff the `j`-th canonical draw is `< 1/2`, to `girls` otherwise, and
the generator advances by exactly `n` canonical draws. -/
theorem brood_spec {G : Type} (gen : Gen G) (year fa mo loc : Nat) :
    ∀ (n : Nat) (acc : RepAcc) (g : G),
      (brood gen year fa mo loc n acc g).1.arena
          = acc.arena ++ List.replicate n ⟨some fa, some mo, year, loc⟩ ∧
      (brood gen year fa mo loc n acc g).1.boys
          = acc.boys ++ ((List.range n).filter
              (fun j => decide ((canonN gen n g).1.getD j 0 < 1/2))).map
              (fun j => acc.arena.length + j) ∧
      (brood gen year fa mo loc n acc g).1.girls
          = acc.girls ++ ((List.range n).filter
              (fun j => ! decide ((canonN gen n g).1.getD j 0 < 1/2))).map
              (fun j => acc.arena.length + j) ∧
      (brood gen year fa mo loc n acc g).2 = (canonN gen n g).2 := by
  intro n
  induction n with
  | zero => intro acc g; simp [brood, canonN]
  | succ m ih =>
    intro acc g
    have hcan1 : (canonN gen (m + 1) g).1 =
        (gen.generate_canonical g).1 ::
          (canonN gen m (gen.generate_canonical g).2).1 := rfl
    have hcan2 : (canonN gen (m + 1) g).2 =
        (canonN gen m (gen.generate_canonical g).2).2 := rfl
    by_cases hc : (gen.generate_canonical g).1 < 1/2
    · have hb : brood gen year fa mo loc (m + 1) acc g =
          brood gen year fa mo loc m
            { acc with
              arena := acc.arena ++ [⟨some fa, some mo, year, loc⟩],
              boys := acc.boys ++ [acc.arena.length] }
            (gen.generate_canonical g).2 := by
        rw [brood]
        simp only [if_pos hc]
      obtain ⟨iha, ihb, ihg, ihs⟩ := ih
        { acc with
          arena := acc.arena ++ [⟨some fa, some mo, year, loc⟩],
          boys := acc.boys ++ [acc.arena.length] }
        (gen.generate_canonical g).2
      refine ⟨?_, ?_, ?_, ?_⟩
      · rw [hb, iha]
        simp [List.replicate_succ, List.append_assoc]
      · rw [hb, ihb]
        simp only [hcan1]
        rw [filter_range_succ_map_pos _ _ _ (by simpa using hc)]
        simp only [List.getD_cons_succ, List.length_append, List.length_cons,
          List.length_nil, List.append_assoc, List.singleton_append,
          List.cons_append, Nat.add_zero]
        rfl
      · rw [hb, ihg]
        simp only [hcan1]
        rw [filter_range_succ_map_neg _ _ _ (by simpa using hc)]
        simp only [List.getD_cons_succ, List.length_append, List.length_cons,
          List.length_nil, Nat.add_zero]
      · rw [hb, ihs, hcan2]
    · have hb : brood gen year fa mo loc (m + 1) acc g =
          brood gen year fa mo loc m
            { acc with
              arena := acc.arena ++ [⟨some fa, some mo, year, loc⟩],
              girls := acc.girls ++ [acc.arena.length] }
            (gen.generate_canonical g).2 := by
        rw [brood]
        simp only [if_neg hc]
      obtain ⟨iha, ihb, ihg, ihs⟩ := ih
        { acc with
          arena := acc.arena ++ [⟨some fa, some mo, year, loc⟩],
          girls := acc.girls ++ [acc.arena.length] }
        (gen.generate_canonical g).2
      refine ⟨?_, ?_, ?_, ?_⟩
      · rw [hb, iha]
        simp [List.replicate_succ, List.append_assoc]
      · rw [hb, ihb]
        simp only [hcan1]
        rw [filter_range_succ_map_neg _ _ _ (by simpa using hc)]
        simp only [List.getD_cons_succ, List.length_append, List.length_cons,
          List.length_nil, Nat.add_zero]
      · rw [hb, ihg]
        simp only [hcan1]
        rw [filter_range_succ_map_pos _ _ _ (by simpa using hc)]
        simp only [List.getD_cons_succ, List.length_append, List.length_cons,
          List.length_nil, List.append_assoc, List.singleton_append,
          List.cons_append, Nat.add_zero]
        rfl
      · rw [hb, ihs, hcan2]

/-- An append-only arena leaves existing dereferences unchanged. -/
theorem indOf_append_lt (arena ex : List IndData) (i : Nat)
    (h : i < arena.length) : indOf (arena ++ ex) i = indOf arena i := by
  simp [indOf, List.getElem?_append, h]

/-- Effect of one body of the `for (mother : females_)` loop: the arena is
only appended to, every new entry carries `mother = some i`, the new
`boys`/`girls` indices are fresh, and nothing at all happens unless mother
`i` is in a breeding place with a nonempty co-located male bucket. -/
theorem reproduce_female_spec (P : Params) {G : Type} (gen : Gen G)
    (year : Nat) (ml : List (List Nat)) (acc : RepAcc) (i : Nat) (g : G)
    (res : RepAcc × G)
    (h : reproduce_female P gen year ml acc i g = some res) :
    ∃ ex bs gs,
      res.1.arena = acc.arena ++ ex ∧
      res.1.boys = acc.boys ++ bs ∧
      res.1.girls = acc.girls ++ gs ∧
      (∀ d ∈ ex, d.mother = some i) ∧
      (∀ b ∈ bs, acc.arena.length ≤ b) ∧
      (∀ b ∈ gs, acc.arena.length ≤ b) ∧
      ((is_in_breeding_place (indOf acc.arena i) = false ∨
        ml.getD (indOf acc.arena i).location [] = []) → res = (acc, g)) := by
  unfold reproduce_female at h
  by_cases hb : is_in_breeding_place (indOf acc.arena i) = true
  · rw [if_pos hb] at h
    by_cases hpf : ml.getD (indOf acc.arena i).location [] = []
    · rw [if_pos hpf] at h
      obtain rfl := Option.some.inj h
      exact ⟨[], [], [], by simp, by simp, by simp, by simp, by simp, by simp,
        fun _ => rfl⟩
    · rw [if_neg hpf] at h
      obtain ⟨ng, hng, hres⟩ := Option.map_eq_some'.mp h
      subst hres
      obtain ⟨ha, hbs, hgs, _⟩ := brood_spec gen year
        ((ml.getD (indOf acc.arena i).location []).getD
          (gen.choice (ml.getD (indOf acc.arena i).location []).length ng.2).1 0)
        i (indOf acc.arena i).location ng.1 acc
        (gen.choice (ml.getD (indOf acc.arena i).location []).length ng.2).2
      refine ⟨_, _, _, ha, hbs, hgs, ?_, ?_, ?_, ?_⟩
      · intro d hd
        rw [List.eq_of_mem_replicate hd]
      · intro b hbm
        obtain ⟨j, _, hj⟩ := List.mem_map.mp hbm
        omega
      · intro b hbm
        obtain ⟨j, _, hj⟩ := List.mem_map.mp hbm
        omega
      · intro hcase
        rcases hcase with hcase | hcase
        · rw [hb] at hcase; cases hcase
        · exact absurd hcase hpf
  · rw [if_neg hb] at h
    obtain rfl := Option.some.inj h
    exact ⟨[], [], [], by simp, by simp, by simp, by simp, by simp, by simp,
      fun _ => rfl⟩

/-- Effect of the whole `for (mother : females_)` loop: appended arena
entries have exactly the processed females as mothers, and only females
that were in a breeding place with a nonempty co-located male bucket (as
evaluated on the pre-loop arena, for indices that were already valid then)
contribute entries. -/
theorem reproduce_loop_spec (P : Params) {G : Type} (gen : Gen G)
    (year : Nat) (ml : List (List Nat)) :
    ∀ (fs : List Nat) (acc : RepAcc) (g : G) (res : RepAcc × G),
      reproduce_loop P gen year ml fs acc g = some res →
      ∃ ex bs gs,
        res.1.arena = acc.arena ++ ex ∧
        res.1.boys = acc.boys ++ bs ∧
        res.1.girls = acc.girls ++ gs ∧
        (∀ b ∈ bs, acc.arena.length ≤ b) ∧
        (∀ b ∈ gs, acc.arena.length ≤ b) ∧
        (∀ d ∈ ex, ∃ f ∈ fs, d.mother = some f ∧
          (f < acc.arena.length →
            is_in_breeding_place (indOf acc.arena f) = true ∧
            ml.getD (indOf acc.arena f).location [] ≠ [])) := by
  intro fs
  induction fs with
  | nil =>
    intro acc g res h
    simp only [reproduce_loop] at h
    obtain rfl := Option.some.inj h
    exact ⟨[], [], [], by simp, by simp, by simp, by simp, by simp, by simp⟩
  | cons f fs ih =>
    intro acc g res h
    simp only [reproduce_loop] at h
    obtain ⟨ag, hag, hrest⟩ := Option.bind_eq_some.mp h
    obtain ⟨ex1, bs1, gs1, ha1, hb1, hg1, hm1, hbb1, hgb1, hskip1⟩ :=
      reproduce_female_spec P gen year ml acc f g ag hag
    obtain ⟨ex2, bs2, gs2, ha2, hb2, hg2, hbb2, hgb2, hm2⟩ :=
      ih ag.1 ag.2 res hrest
    have hlen1 : acc.arena.length ≤ ag.1.arena.length := by
      rw [ha1]; simp
    refine ⟨ex1 ++ ex2, bs1 ++ bs2, gs1 ++ gs2, ?_, ?_, ?_, ?_, ?_, ?_⟩
    · rw [ha2, ha1, List.append_assoc]
    · rw [hb2, hb1, List.append_assoc]
    · rw [hg2, hg1, List.append_assoc]
    · intro b hbm
      rcases List.mem_append.mp hbm with hbm | hbm
      · exact hbb1 b hbm
      · exact le_trans hlen1 (hbb2 b hbm)
    · intro b hbm
      rcases List.mem_append.mp hbm with hbm | hbm
      · exact hgb1 b hbm
      · exact le_trans hlen1 (hgb2 b hbm)
    · intro d hd
      rcases List.mem_append.mp hd with hd | hd
      · refine ⟨f, List.mem_cons_self f fs, hm1 d hd, ?_⟩
        intro hflt
        by_cases hcond : is_in_breeding_place (indOf acc.arena f) = true ∧
            ml.getD (indOf acc.arena f).location [] ≠ []
        · exact hcond
        · exfalso
          have hsk : ag = (acc, g) := by
            apply hskip1
            rcases Bool.eq_false_or_eq_true
              (is_in_breeding_place (indOf acc.arena f)) with hbf | hbf
            · refine Or.inr ?_
              by_contra hne
              exact hcond ⟨hbf, hne⟩
            · exact Or.inl hbf
          rw [hsk] at ha1
          have hex : ex1 = [] := by
            have hlen := congrArg List.length ha1
            simp only [List.length_append] at hlen
            have hz : ex1.length = 0 := by omega
            exact List.eq_nil_of_length_eq_zero hz
          rw [hex] at hd
          cases hd
      · obtain ⟨f', hf', hmo, hcond⟩ := hm2 d hd
        refine ⟨f', List.mem_cons_of_mem f hf', hmo, ?_⟩
        intro hflt
        have hlt1 : f' < ag.1.arena.length := lt_of_lt_of_le hflt hlen1
        have := hcond hlt1
        rw [ha1, indOf_append_lt acc.arena ex1 f' hflt] at this
        exact this

/-- C7: in every `reproduce()` phase, a female outside a breeding place, or
with an empty co-located potential-father bucket, is skipped before any
random draw (`continue`), so she contributes zero offspring regardless of
what `recruitment` would have drawn; a female whose recruitment draw is `0`
also contributes zero offspring; and in a full `reproduce` call no new
arena entry (hence no new cohort member) has such a female as mother. -/
theorem claim_C7 (P : Params) {G : Type} (gen : Gen G) (year : Nat) :
    (∀ (ml : List (List Nat)) (acc : RepAcc) (i : Nat) (g : G),
      is_in_breeding_place (indOf acc.arena i) = false →
      reproduce_female P gen year ml acc i g = some (acc, g)) ∧
    (∀ (ml : List (List Nat)) (acc : RepAcc) (i : Nat) (g : G),
      ml.getD (indOf acc.arena i).location [] = [] →
      reproduce_female P gen year ml acc i g = some (acc, g)) ∧
    (∀ (ml : List (List Nat)) (acc : RepAcc) (i : Nat) (g g1 : G),
      recruitment P (indOf acc.arena i).birth_year year gen g = some (0, g1) →
      ∀ res, reproduce_female P gen year ml acc i g = some res →
        res.1 = acc) ∧
    (∀ (st : PopState) (g : G) (res : PopState × G) (i : Nat),
      reproduce P gen year st g = some res →
      i < st.arena.length →
      (is_in_breeding_place (indOf st.arena i) = false ∨
        st.males.filter
          (fun m => (indOf st.arena m).location = (indOf st.arena i).location)
          = []) →
      ∃ boys girls, res.1.males = st.males ++ boys ∧
        res.1.females = st.females ++ girls ∧
        (∀ b ∈ boys ++ girls, ∀ d, res.1.arena[b]? = some d →
          d.mother ≠ some i)) := by
  refine ⟨?_, ?_, ?_, ?_⟩
  · intro ml acc i g hb
    unfold reproduce_female
    rw [if_neg (by rw [hb]; exact Bool.false_ne_true)]
  · intro ml acc i g hpf
    unfold reproduce_female
    by_cases hb : is_in_breeding_place (indOf acc.arena i) = true
    · rw [if_pos hb, if_pos hpf]
    · rw [if_neg hb]
  · intro ml acc i g g1 hrec res h
    unfold reproduce_female at h
    by_cases hb : is_in_breeding_place (indOf acc.arena i) = true
    · rw [if_pos hb] at h
      by_cases hpf : ml.getD (indOf acc.arena i).location [] = []
      · rw [if_pos hpf] at h
        obtain rfl := Option.some.inj h
        rfl
      · rw [if_neg hpf] at h
        rw [hrec] at h
        obtain rfl := Option.some.inj h
        rfl
    · rw [if_neg hb] at h
      obtain rfl := Option.some.inj h
      rfl
  · intro st g res i hrun hi hcond
    unfold reproduce at hrun
    obtain ⟨ag, hag, hres⟩ := Option.map_eq_some'.mp hrun
    obtain ⟨ex, bs, gs, ha, hbs, hgs, hbb, hgb, hmo⟩ :=
      reproduce_loop_spec P gen year _ st.females ⟨st.arena, [], []⟩ g ag hag
    subst hres
    refine ⟨ag.1.boys, ag.1.girls, rfl, rfl, ?_⟩
    intro b hbm d hd hdm
    have hble : st.arena.length ≤ b := by
      rcases List.mem_append.mp hbm with hbm | hbm
      · rw [hbs] at hbm
        simpa using hbb b (by simpa using hbm)
      · rw [hgs] at hbm
        simpa using hgb b (by simpa using hbm)
    have hdex : d ∈ ex := by
      have : (st.arena ++ ex)[b]? = some d := by
        simpa [ha] using hd
      rw [List.getElem?_append_right hble] at this
      exact List.getElem?_mem this
    obtain ⟨f, hf, hfm, hfc⟩ := hmo d hdex
    rw [hdm] at hfm
    obtain rfl : i = f := Option.some.inj hfm
    have hcc := hfc hi
    rcases hcond with hcond | hcond
    · rw [hcond] at hcc
      cases hcc.1
    · refine hcc.2 ?_
      have hloc :
          ((List.range (num_locations P)).map
            (fun loc => st.males.filter
              (fun m => (indOf st.arena m).location = loc))).getD
            (indOf st.arena i).location [] = [] := by
        rcases Nat.lt_or_ge (indOf st.arena i).location (num_locations P)
          with hlt | hge
        · rw [List.getD_eq_getElem?_getD, List.getElem?_map,
            List.getElem?_range hlt]
          simpa using hcond
        · rw [List.getD_eq_getElem?_getD, List.getElem?_eq_none (by simpa using hge)]
          rfl
      exact hloc

/-- Parameter set used by the C7/C8 witnesses. -/
def wParams : Params := ⟨fun q => q, 1, none, [1], [1], [1], [[[1]]]⟩

/-- A population whose only female (arena index 0) sits in non-breeding
location 5. -/
def w7st : PopState := ⟨[⟨none, none, 0, 5⟩], [], [0], [], [], []⟩

/-- Witness for C7: its four conjuncts instantiated at concrete inputs. -/
theorem claim_C7_witness :
    reproduce_female wParams unitGen 0 [[0]] ⟨[⟨none, none, 0, 5⟩], [], []⟩ 0 ()
      = some (⟨[⟨none, none, 0, 5⟩], [], []⟩, ()) ∧
    reproduce_female wParams unitGen 0 [] ⟨[⟨none, none, 0, 0⟩], [], []⟩ 0 ()
      = some (⟨[⟨none, none, 0, 0⟩], [], []⟩, ()) ∧
    (({ arena := [⟨none, none, 0, 0⟩], boys := [], girls := [] } : RepAcc), ()).1
      = ({ arena := [⟨none, none, 0, 0⟩], boys := [], girls := [] } : RepAcc) ∧
    (∃ boys girls,
      ({ w7st with trace := [(0, Phase.reproduce)] }, ()).1.males
          = w7st.males ++ boys ∧
        ({ w7st with trace := [(0, Phase.reproduce)] }, ()).1.females
          = w7st.females ++ girls ∧
        (∀ b ∈ boys ++ girls, ∀ d,
          ({ w7st with trace := [(0, Phase.reproduce)] }, ()).1.arena[b]? = some d →
          d.mother ≠ some 0)) := by
  have h := claim_C7 wParams unitGen 0
  refine ⟨h.1 [[0]] ⟨[⟨none, none, 0, 5⟩], [], []⟩ 0 () (by decide),
    h.2.1 [] ⟨[⟨none, none, 0, 0⟩], [], []⟩ 0 () (by decide),
    h.2.2.1 [] ⟨[⟨none, none, 0, 0⟩], [], []⟩ 0 () ()
      (by rfl)
      (⟨[⟨none, none, 0, 0⟩], [], []⟩, ()) (by rfl),
    h.2.2.2 w7st () ({ w7st with trace := [(0, Phase.reproduce)] }, ()) 0
      (by rfl) (by decide) (Or.inl (by decide))⟩

/-- C8: for a breeding female `i` with a nonempty co-located male bucket,
`reproduce` chooses exactly one father for the whole cycle — the bucket
element selected by the uniform `wtl::choice` primitive, in range by the
`LawfulGen` contract, hence a co-located male; every offspring of the brood
shares that father, has `mother = i`, `birth_time = year` and `location` =
the mother's current location; the `j`-th offspring's sex is decided by its
own fair coin flip (canonical draw `< 1/2` ⇒ boy); and `reproduce` inserts
the `boys` into the male cohort and the `girls` into the female cohort. -/
theorem claim_C8 (P : Params) {G : Type} (gen : Gen G) (hlaw : LawfulGen gen)
    (year : Nat) (ml : List (List Nat)) (acc : RepAcc) (i : Nat) (g : G)
    (n : Nat) (g1 : G)
    (hbreed : is_in_breeding_place (indOf acc.arena i) = true)
    (hpf : ml.getD (indOf acc.arena i).location [] ≠ [])
    (hrec : recruitment P (indOf acc.arena i).birth_year year gen g
      = some (n, g1)) :
    (gen.choice (ml.getD (indOf acc.arena i).location []).length g1).1
        < (ml.getD (indOf acc.arena i).location []).length ∧
    ((ml.getD (indOf acc.arena i).location []).getD
        (gen.choice (ml.getD (indOf acc.arena i).location []).length g1).1 0)
      ∈ ml.getD (indOf acc.arena i).location [] ∧
    reproduce_female P gen year ml acc i g = some (brood gen year
      ((ml.getD (indOf acc.arena i).location []).getD
        (gen.choice (ml.getD (indOf acc.arena i).location []).length g1).1 0)
      i (indOf acc.arena i).location n acc
      (gen.choice (ml.getD (indOf acc.arena i).location []).length g1).2) ∧
    (∀ fa g2,
      (brood gen year fa i (indOf acc.arena i).location n acc g2).1.arena
        = acc.arena ++ List.replicate n
            ⟨some fa, some i, year, (indOf acc.arena i).location⟩) ∧
    (∀ fa g2,
      (brood gen year fa i (indOf acc.arena i).location n acc g2).1.boys
        = acc.boys ++ ((List.range n).filter
            (fun j => decide ((canonN gen n g2).1.getD j 0 < 1/2))).map
            (fun j => acc.arena.length + j)) ∧
    (∀ fa g2,
      (brood gen year fa i (indOf acc.arena i).location n acc g2).1.girls
        = acc.girls ++ ((List.range n).filter
            (fun j => ! decide ((canonN gen n g2).1.getD j 0 < 1/2))).map
            (fun j => acc.arena.length + j)) ∧
    (∀ (st : PopState) (gg : G) (res : PopState × G),
      reproduce P gen year st gg = some res →
      ∃ ag, reproduce_loop P gen year
          ((List.range (num_locations P)).map
            (fun loc => st.males.filter
              (fun m => (indOf st.arena m).location = loc)))
          st.females ⟨st.arena, [], []⟩ gg = some ag ∧
        res.1.males = st.males ++ ag.1.boys ∧
        res.1.females = st.females ++ ag.1.girls) := by
  have hlen : 0 < (ml.getD (indOf acc.arena i).location []).length :=
    List.length_pos.mpr hpf
  have hchoice := hlaw.choice_lt
    (ml.getD (indOf acc.arena i).location []).length g1 hlen
  refine ⟨hchoice, ?_, ?_, ?_, ?_, ?_, ?_⟩
  · rw [List.getD_eq_getElem
      (ml.getD (indOf acc.arena i).location []) 0 hchoice]
    exact List.getElem_mem hchoice
  · unfold reproduce_female
    rw [if_pos hbreed, if_neg hpf, hrec]
    rfl
  · intro fa g2
    exact (brood_spec gen year fa i (indOf acc.arena i).location n acc g2).1
  · intro fa g2
    exact (brood_spec gen year fa i (indOf acc.arena i).location n acc g2).2.1
  · intro fa g2
    exact (brood_spec gen year fa i (indOf acc.arena i).location n acc g2).2.2.1
  · intro st gg res hrun
    unfold reproduce at hrun
    obtain ⟨ag, hag, hres⟩ := Option.map_eq_some'.mp hrun
    subst hres
    exact ⟨ag, hag, rfl, rfl⟩

/-- Accumulator used by the C8 witness: two individuals at breeding
location 0, the female being index 0 and the bucket holding male index 1. -/
def w8acc : RepAcc := ⟨[⟨none, none, 0, 0⟩, ⟨none, none, 0, 0⟩], [], []⟩

/-- Witness for C8: concrete breeding female with one co-located male. -/
theorem claim_C8_witness :
    (rangeGen.choice 1 ()).1 < 1 ∧
    reproduce_female wParams rangeGen 0 [[1]] w8acc 0 ()
      = some (brood rangeGen 0
          (([1] : List Nat).getD (rangeGen.choice 1 ()).1 0)
          0 0 0 w8acc (rangeGen.choice 1 ()).2) ∧
    (brood rangeGen 0 1 0 0 0 w8acc ()).1.arena
      = w8acc.arena ++ List.replicate 0 ⟨some 1, some 0, 0, 0⟩ := by
  have h := claim_C8 wParams rangeGen rangeGen_lawful 0 [[1]] w8acc 0 () 0 ()
    (by decide) (by decide) rfl
  exact ⟨h.1, h.2.2.1, h.2.2.2.1 1 ()⟩

/-- Reading a list back off by positions is the identity. -/
theorem map_getD_range (l : List Nat) :
    (List.range l.length).map (fun i => l.getD i 0) = l := by
  induction l with
  | nil => rfl
  | cons x xs ih =>
    rw [List.length_cons, List.range_succ_eq_map, List.map_cons, List.map_map]
    simp only [List.getD_cons_zero]
    refine congrArg (x :: ·) ?_
    calc (List.range xs.length).map ((fun i => (x :: xs).getD i 0) ∘ Nat.succ)
        = (List.range xs.length).map (fun i => xs.getD i 0) := by
          refine List.map_congr_left ?_
          intro a _
          simp
      _ = xs := ih

/-- The positions of `range n` lying in a finite set `s ⊆ [0, n)` are
exactly `s.card` many. -/
theorem length_filter_range_mem (s : Finset Nat) (n : Nat)
    (hs : ∀ j ∈ s, j < n) :
    ((List.range n).filter (fun i => decide (i ∈ s))).length = s.card := by
  have hnd : ((List.range n).filter (fun i => decide (i ∈ s))).Nodup :=
    (List.nodup_range n).filter _
  have hset : ((List.range n).filter (fun i => decide (i ∈ s))).toFinset = s := by
    ext x
    simp only [List.mem_toFinset, List.mem_filter, List.mem_range,
      decide_eq_true_eq]
    exact ⟨fun h => h.2, fun h => ⟨hs x h, h⟩⟩
  calc ((List.range n).filter (fun i => decide (i ∈ s))).length
      = ((List.range n).filter (fun i => decide (i ∈ s))).toFinset.card :=
        (List.toFinset_card_of_nodup hnd).symm
    _ = s.card := by rw [hset]

/-- The chosen part of a stratum has the clamped quota size `min k n`. -/
theorem pickStratum_samples_length {G : Type} (gen : Gen G)
    (hlaw : LawfulGen gen) (indices : List Nat) (k : Nat) (g : G) :
    (pickStratum gen indices k g).2.1.length = min k indices.length := by
  unfold pickStratum
  simp only [List.length_map]
  rw [length_filter_range_mem _ _
    (fun j hj => hlaw.sample_mem indices.length k g j hj)]
  exact hlaw.sample_card indices.length k g

/-- A stratum is split by `pickStratum` into unchosen ++ chosen, a
permutation of the stratum. -/
theorem pickStratum_perm {G : Type} (gen : Gen G) (indices : List Nat)
    (k : Nat) (g : G) :
    ((pickStratum gen indices k g).1 ++ (pickStratum gen indices k g).2.1).Perm
      indices := by
  unfold pickStratum
  simp only [decide_not]
  rw [← List.map_append]
  have hp : ((List.range indices.length).filter
        (fun i => !decide (i ∈ (gen.sample indices.length k g).1)) ++
      (List.range indices.length).filter
        (fun i => decide (i ∈ (gen.sample indices.length k g).1))).Perm
      (List.range indices.length) :=
    (List.perm_append_comm).trans
      (List.filter_append_perm _ (List.range indices.length))
  have hmap := hp.map (fun i => indices.getD i 0)
  rwa [map_getD_range indices] at hmap

/-- Every element of either part produced by `pickStratum` comes from the
stratum. -/
theorem pickStratum_subset {G : Type} (gen : Gen G) (indices : List Nat)
    (k : Nat) (g : G) :
    (∀ x ∈ (pickStratum gen indices k g).1, x ∈ indices) ∧
    (∀ x ∈ (pickStratum gen indices k g).2.1, x ∈ indices) := by
  constructor <;>
  · intro x hx
    unfold pickStratum at hx
    simp only [List.mem_map, List.mem_filter, List.mem_range] at hx
    obtain ⟨i, ⟨hi, _⟩, rfl⟩ := hx
    rw [List.getD_eq_getElem indices 0 hi]
    exact List.getElem_mem hi

/-- An adult-stratum member of location `l` belongs to no other stratum. -/
theorem isAdultAt_exclusive (arena : List IndData) (year l l' i : Nat)
    (h : isAdultAt arena year l i = true) :
    (l' ≠ l → isAdultAt arena year l' i = false) ∧
    isJuvenileAt arena year l' i = false := by
  simp only [isAdultAt, isJuvenileAt, Bool.and_eq_true, decide_eq_true_eq] at h
  constructor
  · intro hne
    rw [Bool.eq_false_iff]
    intro hcon
    simp only [isAdultAt, Bool.and_eq_true, decide_eq_true_eq] at hcon
    exact hne (hcon.1.2.symm.trans h.1.2)
  · rw [Bool.eq_false_iff]
    intro hcon
    simp only [isJuvenileAt, Bool.and_eq_true, decide_eq_true_eq] at hcon
    exact h.2 hcon.2

/-- A juvenile-stratum member of location `l` belongs to no other stratum. -/
theorem isJuvenileAt_exclusive (arena : List IndData) (year l l' i : Nat)
    (h : isJuvenileAt arena year l i = true) :
    (l' ≠ l → isJuvenileAt arena year l' i = false) ∧
    isAdultAt arena year l' i = false := by
  simp only [isJuvenileAt, Bool.and_eq_true, decide_eq_true_eq] at h
  constructor
  · intro hne
    rw [Bool.eq_false_iff]
    intro hcon
    simp only [isJuvenileAt, Bool.and_eq_true, decide_eq_true_eq] at hcon
    exact hne (hcon.1.2.symm.trans h.1.2)
  · rw [Bool.eq_false_iff]
    intro hcon
    simp only [isAdultAt, Bool.and_eq_true, decide_eq_true_eq] at hcon
    exact hcon.2 h.2

/-- Occurrences of a filtered list. -/
theorem count_filter_cases (l : List Nat) (x : Nat) (p : Nat → Bool) :
    (l.filter p).count x = if p x then l.count x else 0 := by
  by_cases hp : p x
  · rw [if_pos hp, List.count_filter hp]
  · rw [if_neg hp, List.count_eq_zero]
    intro hmem
    rw [List.mem_filter] at hmem
    exact hp hmem.2

/-- The five sampling strata (non-breeding, adults and juveniles at the two
breeding locations) partition the occurrences of any cohort. -/
theorem strata_count (arena : List IndData) (year : Nat) (cohort : List Nat)
    (x : Nat) :
    (cohort.filter (fun i => decide (¬ is_in_breeding_place (indOf arena i) = true))).count x
      + (cohort.filter (isAdultAt arena year 0)).count x
      + (cohort.filter (isJuvenileAt arena year 0)).count x
      + (cohort.filter (isAdultAt arena year 1)).count x
      + (cohort.filter (isJuvenileAt arena year 1)).count x
      = cohort.count x := by
  rw [count_filter_cases, count_filter_cases, count_filter_cases,
    count_filter_cases, count_filter_cases]
  by_cases hb : is_in_breeding_place (indOf arena x) = true
  · have hloc : (indOf arena x).location < 2 := by
      simpa [is_in_breeding_place, num_breeding_places] using hb
    have hcase : (indOf arena x).location = 0 ∨ (indOf arena x).location = 1 := by
      omega
    by_cases hj : (indOf arena x).birth_year = year
    · rcases hcase with h0 | h0 <;>
        simp [isAdultAt, isJuvenileAt, hb, h0, hj]
    · rcases hcase with h0 | h0 <;>
        simp [isAdultAt, isJuvenileAt, hb, h0, hj]
  · have hb' : is_in_breeding_place (indOf arena x) = false :=
      Bool.eq_false_iff.mpr hb
    simp [isAdultAt, isJuvenileAt, hb']

/-- C3: in `sample(rate)`, per cohort and per breeding location the adult
quota is `round(rate × #adults-at-location)` and the juvenile quota exactly
twice that; both are clamped to the stratum size (`min`, via the
`wtl::sample` contract), so sampling never fails; the chosen individuals
are moved into the archive keyed by the current year while every unchosen
individual — including every individual outside a breeding location —
remains in its cohort (survivors ++ samples is a permutation of the
cohort). -/
theorem claim_C3 {G : Type} (gen : Gen G) (hlaw : LawfulGen gen) (rate : ℚ)
    (year : Nat) (arena : List IndData) (cohort : List Nat) (g : G) :
    (∀ loc, loc < num_breeding_places →
      (sampleCohort gen rate year arena cohort g).2.1.countP
          (isAdultAt arena year loc)
        = min (cround (rate * (cohort.filter (isAdultAt arena year loc)).length))
            (cohort.filter (isAdultAt arena year loc)).length ∧
      (sampleCohort gen rate year arena cohort g).2.1.countP
          (isJuvenileAt arena year loc)
        = min (2 * cround (rate * (cohort.filter (isAdultAt arena year loc)).length))
            (cohort.filter (isJuvenileAt arena year loc)).length) ∧
    ((sampleCohort gen rate year arena cohort g).1
        ++ (sampleCohort gen rate year arena cohort g).2.1).Perm cohort ∧
    ((sampleCohort gen rate year arena cohort g).1.filter
        (fun i => ¬ is_in_breeding_place (indOf arena i))
      = cohort.filter (fun i => ¬ is_in_breeding_place (indOf arena i))) ∧
    (∀ (st : PopState) (gg : G),
      (samplePhase gen rate year st gg).1.year_samples
        = st.year_samples ++ [(year,
            (sampleCohort gen rate year st.arena st.males gg).2.1 ++
              (sampleCohort gen rate year st.arena st.females
                (sampleCohort gen rate year st.arena st.males gg).2.2).2.1)] ∧
      (samplePhase gen rate year st gg).1.males
        = (sampleCohort gen rate year st.arena st.males gg).1 ∧
      (samplePhase gen rate year st gg).1.females
        = (sampleCohort gen rate year st.arena st.females
            (sampleCohort gen rate year st.arena st.males gg).2.2).1) := by
  obtain ⟨p0, q0, p1, q1, hp0, hq0, hp1, hq1, hsc⟩ :
      ∃ p0 q0 p1 q1,
        p0 = pickStratum gen (cohort.filter (isAdultAt arena year 0))
          (cround (rate * (cohort.filter (isAdultAt arena year 0)).length)) g ∧
        q0 = pickStratum gen (cohort.filter (isJuvenileAt arena year 0))
          (2 * cround (rate * (cohort.filter (isAdultAt arena year 0)).length))
          p0.2.2 ∧
        p1 = pickStratum gen (cohort.filter (isAdultAt arena year 1))
          (cround (rate * (cohort.filter (isAdultAt arena year 1)).length))
          q0.2.2 ∧
        q1 = pickStratum gen (cohort.filter (isJuvenileAt arena year 1))
          (2 * cround (rate * (cohort.filter (isAdultAt arena year 1)).length))
          p1.2.2 ∧
        sampleCohort gen rate year arena cohort g =
          (cohort.filter (fun i => ¬ is_in_breeding_place (indOf arena i))
              ++ p0.1 ++ q0.1 ++ p1.1 ++ q1.1,
            p0.2.1 ++ q0.2.1 ++ p1.2.1 ++ q1.2.1,
            q1.2.2) :=
    ⟨_, _, _, _, rfl, rfl, rfl, rfl, rfl⟩
  have hmemA0 : ∀ x ∈ p0.2.1, isAdultAt arena year 0 x = true := by
    intro x hx
    rw [hp0] at hx
    exact List.of_mem_filter ((pickStratum_subset gen _ _ _).2 x hx)
  have hmemJ0 : ∀ x ∈ q0.2.1, isJuvenileAt arena year 0 x = true := by
    intro x hx
    rw [hq0] at hx
    exact List.of_mem_filter ((pickStratum_subset gen _ _ _).2 x hx)
  have hmemA1 : ∀ x ∈ p1.2.1, isAdultAt arena year 1 x = true := by
    intro x hx
    rw [hp1] at hx
    exact List.of_mem_filter ((pickStratum_subset gen _ _ _).2 x hx)
  have hmemJ1 : ∀ x ∈ q1.2.1, isJuvenileAt arena year 1 x = true := by
    intro x hx
    rw [hq1] at hx
    exact List.of_mem_filter ((pickStratum_subset gen _ _ _).2 x hx)
  have hmemA0s : ∀ x ∈ p0.1, isAdultAt arena year 0 x = true := by
    intro x hx
    rw [hp0] at hx
    exact List.of_mem_filter ((pickStratum_subset gen _ _ _).1 x hx)
  have hmemJ0s : ∀ x ∈ q0.1, isJuvenileAt arena year 0 x = true := by
    intro x hx
    rw [hq0] at hx
    exact List.of_mem_filter ((pickStratum_subset gen _ _ _).1 x hx)
  have hmemA1s : ∀ x ∈ p1.1, isAdultAt arena year 1 x = true := by
    intro x hx
    rw [hp1] at hx
    exact List.of_mem_filter ((pickStratum_subset gen _ _ _).1 x hx)
  have hmemJ1s : ∀ x ∈ q1.1, isJuvenileAt arena year 1 x = true := by
    intro x hx
    rw [hq1] at hx
    exact List.of_mem_filter ((pickStratum_subset gen _ _ _).1 x hx)
  have hlenA0 : p0.2.1.length =
      min (cround (rate * (cohort.filter (isAdultAt arena year 0)).length))
        (cohort.filter (isAdultAt arena year 0)).length := by
    rw [hp0]; exact pickStratum_samples_length gen hlaw _ _ _
  have hlenJ0 : q0.2.1.length =
      min (2 * cround (rate * (cohort.filter (isAdultAt arena year 0)).length))
        (cohort.filter (isJuvenileAt arena year 0)).length := by
    rw [hq0]; exact pickStratum_samples_length gen hlaw _ _ _
  have hlenA1 : p1.2.1.length =
      min (cround (rate * (cohort.filter (isAdultAt arena year 1)).length))
        (cohort.filter (isAdultAt arena year 1)).length := by
    rw [hp1]; exact pickStratum_samples_length gen hlaw _ _ _
  have hlenJ1 : q1.2.1.length =
      min (2 * cround (rate * (cohort.filter (isAdultAt arena year 1)).length))
        (cohort.filter (isJuvenileAt arena year 1)).length := by
    rw [hq1]; exact pickStratum_samples_length gen hlaw _ _ _
  have hcountP_len : ∀ (l : List Nat) (p : Nat → Bool),
      (∀ a ∈ l, p a = true) → l.countP p = l.length := by
    intro l p h
    refine List.countP_eq_length.mpr ?_
    intro a ha
    rw [h a ha]
  have hcountP_zero : ∀ (l : List Nat) (p : Nat → Bool),
      (∀ a ∈ l, p a = false) → l.countP p = 0 := by
    intro l p h
    rw [List.countP_eq_zero]
    intro a ha
    rw [h a ha]
    exact Bool.false_ne_true
  refine ⟨?_, ?_, ?_, fun st gg => ⟨rfl, rfl, rfl⟩⟩
  · intro loc hloc
    have hloc2 : loc = 0 ∨ loc = 1 := by
      simp only [num_breeding_places] at hloc
      omega
    rw [hsc]
    simp only [List.countP_append]
    rcases hloc2 with rfl | rfl
    · constructor
      · rw [hcountP_len _ _ hmemA0,
          hcountP_zero _ _ (fun a ha => (isJuvenileAt_exclusive arena year 0 0 a
            (hmemJ0 a ha)).2),
          hcountP_zero _ _ (fun a ha => (isAdultAt_exclusive arena year 1 0 a
            (hmemA1 a ha)).1 (by omega)),
          hcountP_zero _ _ (fun a ha => (isJuvenileAt_exclusive arena year 1 0 a
            (hmemJ1 a ha)).2),
          hlenA0]
        omega
      · rw [hcountP_zero _ _ (fun a ha => (isAdultAt_exclusive arena year 0 0 a
            (hmemA0 a ha)).2),
          hcountP_len _ _ hmemJ0,
          hcountP_zero _ _ (fun a ha => (isAdultAt_exclusive arena year 1 0 a
            (hmemA1 a ha)).2),
          hcountP_zero _ _ (fun a ha => (isJuvenileAt_exclusive arena year 1 0 a
            (hmemJ1 a ha)).1 (by omega)),
          hlenJ0]
        omega
    · constructor
      · rw [hcountP_zero _ _ (fun a ha => (isAdultAt_exclusive arena year 0 1 a
            (hmemA0 a ha)).1 (by omega)),
          hcountP_zero _ _ (fun a ha => (isJuvenileAt_exclusive arena year 0 1 a
            (hmemJ0 a ha)).2),
          hcountP_len _ _ hmemA1,
          hcountP_zero _ _ (fun a ha => (isJuvenileAt_exclusive arena year 1 1 a
            (hmemJ1 a ha)).2),
          hlenA1]
        omega
      · rw [hcountP_zero _ _ (fun a ha => (isAdultAt_exclusive arena year 0 1 a
            (hmemA0 a ha)).2),
          hcountP_zero _ _ (fun a ha => (isJuvenileAt_exclusive arena year 0 1 a
            (hmemJ0 a ha)).1 (by omega)),
          hcountP_zero _ _ (fun a ha => (isAdultAt_exclusive arena year 1 1 a
            (hmemA1 a ha)).2),
          hcountP_len _ _ hmemJ1,
          hlenJ1]
        omega
  · rw [hsc]
    refine List.perm_iff_count.mpr ?_
    intro x
    simp only [List.count_append]
    have c0 : p0.1.count x + p0.2.1.count x =
        (cohort.filter (isAdultAt arena year 0)).count x := by
      rw [← List.count_append, hp0]
      exact (pickStratum_perm gen _ _ _).count_eq x
    have c1 : q0.1.count x + q0.2.1.count x =
        (cohort.filter (isJuvenileAt arena year 0)).count x := by
      rw [← List.count_append, hq0]
      exact (pickStratum_perm gen _ _ _).count_eq x
    have c2 : p1.1.count x + p1.2.1.count x =
        (cohort.filter (isAdultAt arena year 1)).count x := by
      rw [← List.count_append, hp1]
      exact (pickStratum_perm gen _ _ _).count_eq x
    have c3 : q1.1.count x + q1.2.1.count x =
        (cohort.filter (isJuvenileAt arena year 1)).count x := by
      rw [← List.count_append, hq1]
      exact (pickStratum_perm gen _ _ _).count_eq x
    have hstrata := strata_count arena year cohort x
    omega
  · rw [hsc]
    simp only [List.filter_append]
    have hnbA : ∀ (l : Nat) (x : Nat), isAdultAt arena year l x = true →
        (decide (¬ is_in_breeding_place (indOf arena x) = true)) = false := by
      intro l x hx
      simp only [isAdultAt, Bool.and_eq_true] at hx
      simp [hx.1.1]
    have hnbJ : ∀ (l : Nat) (x : Nat), isJuvenileAt arena year l x = true →
        (decide (¬ is_in_breeding_place (indOf arena x) = true)) = false := by
      intro l x hx
      simp only [isJuvenileAt, Bool.and_eq_true] at hx
      simp [hx.1.1]
    have e0 : (cohort.filter
        (fun i => ¬ is_in_breeding_place (indOf arena i))).filter
          (fun i => ¬ is_in_breeding_place (indOf arena i)) =
        cohort.filter (fun i => ¬ is_in_breeding_place (indOf arena i)) := by
      refine List.filter_eq_self.mpr ?_
      intro a ha
      exact (List.mem_filter.mp ha).2
    have ef : ∀ (l : List Nat),
        (∀ x ∈ l, (decide (¬ is_in_breeding_place (indOf arena x) = true)) = false) →
        l.filter (fun i => ¬ is_in_breeding_place (indOf arena i)) = [] := by
      intro l h
      rw [List.filter_eq_nil_iff]
      intro a ha
      rw [h a ha]
      exact Bool.false_ne_true
    rw [e0, ef _ (fun x hx => hnbA 0 x (hmemA0s x hx)),
      ef _ (fun x hx => hnbJ 0 x (hmemJ0s x hx)),
      ef _ (fun x hx => hnbA 1 x (hmemA1s x hx)),
      ef _ (fun x hx => hnbJ 1 x (hmemJ1s x hx))]
    simp

/-- Arena for the C3 witness: an adult and a juvenile at breeding location
0 plus one individual at non-breeding location 5 (current year 1). -/
def w3arena : List IndData :=
  [⟨none, none, 0, 0⟩, ⟨none, none, 1, 0⟩, ⟨none, none, 0, 5⟩]

/-- Population state for the C3 witness. -/
def w3st : PopState := ⟨w3arena, [0], [1, 2], [], [], []⟩

/-- Witness for C3 at `rate = 1/2`, year 1, on `w3arena`. -/
theorem claim_C3_witness :
    ((sampleCohort rangeGen (1/2) 1 w3arena [0, 1, 2] ()).2.1.countP
        (isAdultAt w3arena 1 0)
      = min (cround ((1/2) *
            (([0, 1, 2] : List Nat).filter (isAdultAt w3arena 1 0)).length))
          (([0, 1, 2] : List Nat).filter (isAdultAt w3arena 1 0)).length ∧
      (sampleCohort rangeGen (1/2) 1 w3arena [0, 1, 2] ()).2.1.countP
        (isJuvenileAt w3arena 1 0)
      = min (2 * cround ((1/2) *
            (([0, 1, 2] : List Nat).filter (isAdultAt w3arena 1 0)).length))
          (([0, 1, 2] : List Nat).filter (isJuvenileAt w3arena 1 0)).length) ∧
    ((sampleCohort rangeGen (1/2) 1 w3arena [0, 1, 2] ()).1
        ++ (sampleCohort rangeGen (1/2) 1 w3arena [0, 1, 2] ()).2.1).Perm
      [0, 1, 2] ∧
    ((sampleCohort rangeGen (1/2) 1 w3arena [0, 1, 2] ()).1.filter
        (fun i => ¬ is_in_breeding_place (indOf w3arena i))
      = ([0, 1, 2] : List Nat).filter
          (fun i => ¬ is_in_breeding_place (indOf w3arena i))) ∧
    (samplePhase rangeGen (1/2) 1 w3st ()).1.year_samples
      = w3st.year_samples ++ [(1,
          (sampleCohort rangeGen (1/2) 1 w3st.arena w3st.males ()).2.1 ++
            (sampleCohort rangeGen (1/2) 1 w3st.arena w3st.females
              (sampleCohort rangeGen (1/2) 1 w3st.arena w3st.males ()).2.2).2.1)] := by
  have h := claim_C3 rangeGen rangeGen_lawful (1/2) 1 w3arena [0, 1, 2] ()
  exact ⟨h.1 0 (by decide), h.2.1, h.2.2.1, (h.2.2.2 w3st ()).1⟩

/-- The ghost trace of one loop iteration of `Population::run`:
`reproduce`, `survive(0..3)`, `sample` when recording, `migrate`. -/
def yearEvents (recording : Bool) (y : Nat) : List (Nat × Phase) :=
  [(y, Phase.reproduce), (y, Phase.survive 0), (y, Phase.survive 1),
    (y, Phase.survive 2), (y, Phase.survive 3)]
    ++ (if recording then [(y, Phase.sample)] else [])
    ++ [(y, Phase.migrate)]

theorem reproduce_effect (P : Params) {G : Type} (gen : Gen G) (year : Nat)
    (st : PopState) (g : G) (res : PopState × G)
    (h : reproduce P gen year st g = some res) :
    res.1.trace = st.trace ++ [(year, Phase.reproduce)] ∧
    res.1.year_samples = st.year_samples := by
  unfold reproduce at h
  obtain ⟨ag, _, hres⟩ := Option.map_eq_some'.mp h
  subst hres
  exact ⟨rfl, rfl⟩

theorem survive_effect (P : Params) {G : Type} (gen : Gen G)
    (year quarter : Nat) (st : PopState) (g : G) (res : PopState × G)
    (h : survive P gen year quarter st g = some res) :
    res.1.trace = st.trace ++ [(year, Phase.survive quarter)] ∧
    res.1.year_samples = st.year_samples := by
  unfold survive at h
  obtain ⟨mg, _, h⟩ := Option.bind_eq_some.mp h
  obtain ⟨fg, _, hres⟩ := Option.map_eq_some'.mp h
  subst hres
  exact ⟨rfl, rfl⟩

theorem migratePhase_effect (P : Params) {G : Type} (gen : Gen G)
    (year : Nat) (st : PopState) (g : G) (res : PopState × G)
    (h : migratePhase P gen year st g = some res) :
    res.1.trace = st.trace ++ [(year, Phase.migrate)] ∧
    res.1.year_samples = st.year_samples := by
  unfold migratePhase at h
  obtain ⟨ag, _, h⟩ := Option.bind_eq_some.mp h
  obtain ⟨bg, _, hres⟩ := Option.map_eq_some'.mp h
  subst hres
  exact ⟨rfl, rfl⟩

theorem samplePhase_effect {G : Type} (gen : Gen G) (rate : ℚ) (year : Nat)
    (st : PopState) (g : G) :
    (samplePhase gen rate year st g).1.trace
      = st.trace ++ [(year, Phase.sample)] ∧
    (samplePhase gen rate year st g).1.year_samples.map Prod.fst
      = st.year_samples.map Prod.fst ++ [year] := by
  constructor
  · rfl
  · simp [samplePhase]

/-- One loop iteration appends exactly the expected phase events, and a
`year_samples_` key exactly for the recorded years. -/
theorem yearStep_spec (P : Params) {G : Type} (gen : Gen G) (rate : ℚ)
    (recStart : Nat) (sg : PopState × G) (year : Nat) (res : PopState × G)
    (h : yearStep P gen rate recStart sg year = some res) :
    res.1.trace = sg.1.trace ++ yearEvents (decide (recStart ≤ year)) year ∧
    res.1.year_samples.map Prod.fst = sg.1.year_samples.map Prod.fst ++
      (if recStart ≤ year then [year] else []) := by
  unfold yearStep at h
  obtain ⟨a, ha, h⟩ := Option.bind_eq_some.mp h
  obtain ⟨b, hb, h⟩ := Option.bind_eq_some.mp h
  obtain ⟨c, hc, h⟩ := Option.bind_eq_some.mp h
  obtain ⟨d2, hd2, h⟩ := Option.bind_eq_some.mp h
  obtain ⟨e, he, h⟩ := Option.bind_eq_some.mp h
  obtain ⟨f2, hf2, hres⟩ := Option.map_eq_some'.mp h
  obtain ⟨hta, hka⟩ := reproduce_effect P gen year sg.1 sg.2 a ha
  obtain ⟨htb, hkb⟩ := survive_effect P gen year 0 a.1 a.2 b hb
  obtain ⟨htc, hkc⟩ := survive_effect P gen year 1 b.1 b.2 c hc
  obtain ⟨htd, hkd⟩ := survive_effect P gen year 2 c.1 c.2 d2 hd2
  obtain ⟨hte, hke⟩ := survive_effect P gen year 3 d2.1 d2.2 e he
  subst hres
  by_cases hrec : recStart ≤ year
  · rw [if_pos hrec] at hf2
    obtain ⟨htf, hkf⟩ := migratePhase_effect P gen year
      (samplePhase gen rate year e.1 e.2).1 (samplePhase gen rate year e.1 e.2).2
      f2 hf2
    obtain ⟨hts, hks⟩ := samplePhase_effect gen rate year e.1 e.2
    constructor
    · show f2.1.trace = sg.1.trace ++ yearEvents (decide (recStart ≤ year)) year
      rw [htf, hts, hte, htd, htc, htb, hta]
      simp [yearEvents, hrec, List.append_assoc]
    · show f2.1.year_samples.map Prod.fst = sg.1.year_samples.map Prod.fst ++
        (if recStart ≤ year then [year] else [])
      rw [hkf, hks, hke, hkd, hkc, hkb, hka, if_pos hrec]
  · rw [if_neg hrec] at hf2
    obtain ⟨htf, hkf⟩ := migratePhase_effect P gen year e.1 e.2 f2 hf2
    constructor
    · show f2.1.trace = sg.1.trace ++ yearEvents (decide (recStart ≤ year)) year
      rw [htf, hte, htd, htc, htb, hta]
      simp [yearEvents, hrec, List.append_assoc]
    · show f2.1.year_samples.map Prod.fst = sg.1.year_samples.map Prod.fst ++
        (if recStart ≤ year then [year] else [])
      rw [hkf, hke, hkd, hkc, hkb, hka, if_neg hrec]
      simp

/-- The year loop of `run` concatenates the per-year phase traces and
records a sample key exactly for the loop years at or after
`recording_start`. -/
theorem runYears_spec (P : Params) {G : Type} (gen : Gen G) (rate : ℚ)
    (recStart : Nat) :
    ∀ (ys : List Nat) (sg : PopState × G) (res : PopState × G),
      runYears P gen rate recStart ys sg = some res →
      res.1.trace = sg.1.trace
          ++ ys.flatMap (fun y => yearEvents (decide (recStart ≤ y)) y) ∧
      res.1.year_samples.map Prod.fst = sg.1.year_samples.map Prod.fst
          ++ ys.filter (fun y => decide (recStart ≤ y)) := by
  intro ys
  induction ys with
  | nil =>
    intro sg res h
    obtain rfl := Option.some.inj h
    simp
  | cons y ys ih =>
    intro sg res h
    simp only [runYears] at h
    obtain ⟨a, ha, hrest⟩ := Option.bind_eq_some.mp h
    obtain ⟨ht1, hk1⟩ := yearStep_spec P gen rate recStart sg y a ha
    obtain ⟨ht2, hk2⟩ := ih a res hrest
    constructor
    · rw [ht2, ht1, List.flatMap_cons, List.append_assoc]
    · rw [hk2, hk1, List.filter_cons, List.append_assoc]
      by_cases hrec : recStart ≤ y
      · rw [if_pos hrec, if_pos (by simpa using hrec)]
        simp
      · rw [if_neg hrec, if_neg (by simpa using hrec)]
        simp

/-- C1 (amended): each loop year `y` (the loop runs `4 ≤ y < duration`)
executes exactly reproduce, survive for quarters 0–3, sample when
recording, then migrate, in that order; and the sample phase runs in year
`y` if and only if `duration − recording_duration ≤ y` (and `y` is a loop
year), i.e. sampling years form the half-open window
`[duration − recording_duration, duration) ∩ [4, ∞)`, not
`(duration − recording_duration, duration]`. -/
theorem claim_C1_amended (P : Params) {G : Type} (gen : Gen G)
    (d : Nat) (rate : ℚ) (r : Nat) (st : PopState) (g : G)
    (res : PopState × G) (hrun : run P gen d rate r st g = some res)
    (hr : r ≤ d) (hd : d < 2 ^ 64) :
    res.1.trace = st.trace ++ (List.range' 4 (d - 4)).flatMap
      (fun y => yearEvents (decide (d - r ≤ y)) y) ∧
    res.1.year_samples.map Prod.fst = st.year_samples.map Prod.fst ++
      (List.range' 4 (d - 4)).filter (fun y => decide (d - r ≤ y)) := by
  unfold run at hrun
  have husb : usub64 d r = d - r := by
    unfold usub64
    have hr64 : r < 2 ^ 64 := lt_of_le_of_lt hr hd
    rw [Nat.mod_eq_of_lt hr64]
    have heq : d + (2 ^ 64 - r) = 2 ^ 64 + (d - r) := by omega
    rw [heq, Nat.add_mod_left, Nat.mod_eq_of_lt (by omega)]
  rw [husb] at hrun
  exact runYears_spec P gen rate (d - r) (List.range' 4 (d - 4)) (st, g) res hrun

/-- Population state with no individuals, for the C1 instances. -/
def c1st : PopState := ⟨[], [], [], [], [], []⟩

/-- C1 counterexample: `run(duration = 10, recording_duration = 2)` creates
sample-archive entries exactly for years 8 and 9; the claim's interval
`(duration − recording_duration, duration] = (8, 10]` wrongly excludes
year 8 (where the code does sample) and wrongly includes year 10 (where
the loop has already ended). -/
theorem claim_C1_counterexample :
    (run ⟨fun q => q, 0, none, [1], [1], [1], [[[1]]]⟩ unitGen 10 0 2 c1st
        ()).map (fun x => x.1.year_samples.map Prod.fst) = some [8, 9] ∧
    ¬ (10 - 2 < 8) ∧ (10 - 2 < 10 ∧ 10 ≤ 10) := by
  refine ⟨?_, by decide, by decide⟩
  rfl

/-- Witness for C1 (amended): the same concrete run, through the theorem. -/
theorem claim_C1_witness :
    (run ⟨fun q => q, 0, none, [1], [1], [1], [[[1]]]⟩ unitGen 10 0 2 c1st
          ()).map (fun x => x.1.year_samples.map Prod.fst)
      = some (c1st.year_samples.map Prod.fst ++
          (List.range' 4 (10 - 4)).filter (fun y => decide (10 - 2 ≤ y))) := by
  have hsome : ∃ res, run ⟨fun q => q, 0, none, [1], [1], [1], [[[1]]]⟩
      unitGen 10 0 2 c1st () = some res := ⟨_, rfl⟩
  obtain ⟨res, hres⟩ := hsome
  have h := claim_C1_amended ⟨fun q => q, 0, none, [1], [1], [1], [[[1]]]⟩
    unitGen 10 0 2 c1st () res hres (by decide) (by decide)
  rw [hres, Option.map_some', h.2]

theorem traceBack_mem (A : Arena) (i : Nat) (hi : i < A.nodes.length)
    (v : Finset Nat) (hv : i ∈ v) : traceBack A i hi v = (v, []) := by
  rw [traceBack, if_pos hv]

theorem traceBack_founder (A : Arena) (i : Nat) (hi : i < A.nodes.length)
    (v : Finset Nat) (hv : ¬ i ∈ v)
    (hf : (A.nodes.get ⟨i, hi⟩).father = none) :
    traceBack A i hi v = (insert i v, [i]) := by
  rw [traceBack, if_neg hv]
  split
  · rfl
  · rename_i fa heq
    rw [hf] at heq
    cases heq

theorem traceBack_fa_none (A : Arena) (i : Nat) (hi : i < A.nodes.length)
    (v : Finset Nat) (hv : ¬ i ∈ v) (fa : Nat)
    (hf : (A.nodes.get ⟨i, hi⟩).father = some fa)
    (hm : (A.nodes.get ⟨i, hi⟩).mother = none)
    (hfa : fa < A.nodes.length) :
    traceBack A i hi v = ((traceBack A fa hfa (insert i v)).1,
      i :: (traceBack A fa hfa (insert i v)).2) := by
  rw [traceBack, if_neg hv]
  split
  · rename_i heq
    rw [hf] at heq
    cases heq
  · rename_i fa' heq
    rw [hf] at heq
    obtain rfl := Option.some.inj heq.symm
    split
    · rfl
    · rename_i mo heqm
      rw [hm] at heqm
      cases heqm

theorem traceBack_fa_mo (A : Arena) (i : Nat) (hi : i < A.nodes.length)
    (v : Finset Nat) (hv : ¬ i ∈ v) (fa mo : Nat)
    (hf : (A.nodes.get ⟨i, hi⟩).father = some fa)
    (hm : (A.nodes.get ⟨i, hi⟩).mother = some mo)
    (hfa : fa < A.nodes.length) (hmo : mo < A.nodes.length) :
    traceBack A i hi v =
      ((traceBack A mo hmo (traceBack A fa hfa (insert i v)).1).1,
        i :: ((traceBack A fa hfa (insert i v)).2 ++
          (traceBack A mo hmo (traceBack A fa hfa (insert i v)).1).2)) := by
  rw [traceBack, if_neg hv]
  split
  · rename_i heq
    rw [hf] at heq
    cases heq
  · rename_i fa' heq
    rw [hf] at heq
    obtain rfl := Option.some.inj heq.symm
    split
    · rename_i heqm
      rw [hm] at heqm
      cases heqm
    · rename_i mo' heqm
      rw [hm] at heqm
      obtain rfl := Option.some.inj heqm.symm
      rfl

/-- Master invariant of `traceBack`: the resulting visited set is the old
set plus exactly the freshly visited log; the log is duplicate-free,
disjoint from the old set and bounded by the arena; and the root ends up
visited. -/
theorem traceBack_spec (A : Arena) :
    ∀ (i : Nat) (hi : i < A.nodes.length) (v : Finset Nat),
      (traceBack A i hi v).1 = v ∪ (traceBack A i hi v).2.toFinset ∧
      (traceBack A i hi v).2.Nodup ∧
      (∀ x ∈ (traceBack A i hi v).2, x ∉ v) ∧
      i ∈ (traceBack A i hi v).1 ∧
      (∀ x ∈ (traceBack A i hi v).2, x < A.nodes.length) := by
  intro i
  induction i using Nat.strong_induction_on with
  | _ i ih =>
    intro hi v
    by_cases hv : i ∈ v
    · rw [traceBack_mem A i hi v hv]
      simp [hv]
    · cases hf : (A.nodes.get ⟨i, hi⟩).father with
      | none =>
        rw [traceBack_founder A i hi v hv hf]
        refine ⟨?_, List.nodup_singleton i, ?_, Finset.mem_insert_self i v, ?_⟩
        · ext x
          simp [Or.comm]
        · intro x hx
          rw [List.mem_singleton.mp hx]
          exact hv
        · intro x hx
          rw [List.mem_singleton.mp hx]
          exact hi
      | some fa =>
        have hfa : fa < i := (A.wf i hi).1 fa (by rw [hf]; rfl)
        have hfa' : fa < A.nodes.length := hfa.trans hi
        obtain ⟨hu1, hn1, hd1, hm1, hb1⟩ := ih fa hfa hfa' (insert i v)
        cases hm : (A.nodes.get ⟨i, hi⟩).mother with
        | none =>
          rw [traceBack_fa_none A i hi v hv fa hf hm hfa']
          refine ⟨?_, ?_, ?_, ?_, ?_⟩
          · rw [hu1]
            ext x
            simp
          · refine List.nodup_cons.mpr ⟨?_, hn1⟩
            intro hmem
            exact (hd1 i hmem) (Finset.mem_insert_self i v)
          · intro x hx
            rcases List.mem_cons.mp hx with rfl | hx
            · exact hv
            · intro hxv
              exact hd1 x hx (Finset.mem_insert_of_mem hxv)
          · rw [hu1]
            exact Finset.mem_union_left _ (Finset.mem_insert_self i v)
          · intro x hx
            rcases List.mem_cons.mp hx with rfl | hx
            · exact hi
            · exact hb1 x hx
        | some mo =>
          have hmo : mo < i := (A.wf i hi).2 mo (by rw [hm]; rfl)
          have hmo' : mo < A.nodes.length := hmo.trans hi
          obtain ⟨hu2, hn2, hd2, hm2, hb2⟩ := ih mo hmo hmo'
            (traceBack A fa hfa' (insert i v)).1
          rw [traceBack_fa_mo A i hi v hv fa mo hf hm hfa' hmo']
          refine ⟨?_, ?_, ?_, ?_, ?_⟩
          · rw [hu2, hu1]
            ext x
            simp
          · refine List.nodup_cons.mpr ⟨?_, ?_⟩
            · intro hmem
              rcases List.mem_append.mp hmem with hmem | hmem
              · exact hd1 i hmem (Finset.mem_insert_self i v)
              · refine hd2 i hmem ?_
                rw [hu1]
                exact Finset.mem_union_left _ (Finset.mem_insert_self i v)
            · refine List.Nodup.append hn1 hn2 ?_
              intro x hx1 hx2
              refine hd2 x hx2 ?_
              rw [hu1]
              exact Finset.mem_union_right _ (List.mem_toFinset.mpr hx1)
          · intro x hx
            rcases List.mem_cons.mp hx with rfl | hx
            · exact hv
            · rcases List.mem_append.mp hx with hx | hx
              · intro hxv
                exact hd1 x hx (Finset.mem_insert_of_mem hxv)
              · intro hxv
                refine hd2 x hx ?_
                rw [hu1]
                exact Finset.mem_union_left _ (Finset.mem_insert_of_mem hxv)
          · rw [hu2]
            refine Finset.mem_union_left _ ?_
            rw [hu1]
            exact Finset.mem_union_left _ (Finset.mem_insert_self i v)
          · intro x hx
            rcases List.mem_cons.mp hx with rfl | hx
            · exact hi
            · rcases List.mem_append.mp hx with hx | hx
              · exact hb1 x hx
              · exact hb2 x hx

/-- `traceBack` only grows the visited set. -/
theorem traceBack_subset (A : Arena) (i : Nat) (hi : i < A.nodes.length)
    (v : Finset Nat) : v ⊆ (traceBack A i hi v).1 := by
  intro x hx
  rw [(traceBack_spec A i hi v).1]
  exact Finset.mem_union_left _ hx

/-- Every node freshly added by `traceBack` has its parent references
inside the resulting visited set (mother via the father-guarded recursion,
as the spec describes). -/
theorem traceBack_closed (A : Arena) :
    ∀ (i : Nat) (hi : i < A.nodes.length) (v : Finset Nat),
      ∀ x ∈ (traceBack A i hi v).1, x ∈ v ∨
        ∃ hx : x < A.nodes.length,
          ∀ fa ∈ (A.nodes.get ⟨x, hx⟩).father,
            fa ∈ (traceBack A i hi v).1 ∧
            ∀ mo ∈ (A.nodes.get ⟨x, hx⟩).mother,
              mo ∈ (traceBack A i hi v).1 := by
  intro i
  induction i using Nat.strong_induction_on with
  | _ i ih =>
    intro hi v x hx
    by_cases hv : i ∈ v
    · rw [traceBack_mem A i hi v hv] at hx ⊢
      exact Or.inl hx
    · cases hf : (A.nodes.get ⟨i, hi⟩).father with
      | none =>
        rw [traceBack_founder A i hi v hv hf] at hx ⊢
        rcases Finset.mem_insert.mp hx with rfl | hx
        · refine Or.inr ⟨hi, ?_⟩
          intro fa hfa
          rw [hf] at hfa
          exact absurd hfa (by simp)
        · exact Or.inl hx
      | some fa =>
        have hfai : fa < i := (A.wf i hi).1 fa (by rw [hf]; rfl)
        have hfa2 : fa < A.nodes.length := hfai.trans hi
        cases hm : (A.nodes.get ⟨i, hi⟩).mother with
        | none =>
          rw [traceBack_fa_none A i hi v hv fa hf hm hfa2] at hx ⊢
          rcases ih fa hfai hfa2 (insert i v) x hx with hx1 | hcl
          · rcases Finset.mem_insert.mp hx1 with hxi | hx1
            · obtain rfl := hxi.symm
              refine Or.inr ⟨hi, ?_⟩
              intro f2 hf2
              rw [hf] at hf2
              obtain rfl := Option.mem_some_iff.mp hf2
              refine ⟨(traceBack_spec A fa hfa2 (insert i v)).2.2.2.1, ?_⟩
              intro m2 hm2
              rw [hm] at hm2
              exact absurd hm2 (by simp)
            · exact Or.inl hx1
          · exact Or.inr hcl
        | some mo =>
          have hmoi : mo < i := (A.wf i hi).2 mo (by rw [hm]; rfl)
          have hmo2 : mo < A.nodes.length := hmoi.trans hi
          rw [traceBack_fa_mo A i hi v hv fa mo hf hm hfa2 hmo2] at hx ⊢
          rcases ih mo hmoi hmo2 (traceBack A fa hfa2 (insert i v)).1 x hx
            with hx1 | hcl
          · rcases ih fa hfai hfa2 (insert i v) x hx1 with hx2 | hcl1
            · rcases Finset.mem_insert.mp hx2 with hxi | hx2
              · obtain rfl := hxi.symm
                refine Or.inr ⟨hi, ?_⟩
                intro f2 hf2
                rw [hf] at hf2
                obtain rfl := Option.mem_some_iff.mp hf2
                constructor
                · exact traceBack_subset A mo hmo2 _
                    ((traceBack_spec A fa hfa2 (insert i v)).2.2.2.1)
                · intro m2 hm2
                  rw [hm] at hm2
                  obtain rfl := Option.mem_some_iff.mp hm2
                  exact (traceBack_spec A mo hmo2 _).2.2.2.1
              · exact Or.inl hx2
            · obtain ⟨hxlen, hcl1⟩ := hcl1
              refine Or.inr ⟨hxlen, ?_⟩
              intro f2 hf2
              obtain ⟨h1, h2⟩ := hcl1 f2 hf2
              exact ⟨traceBack_subset A mo hmo2 _ h1,
                fun m2 hm2 => traceBack_subset A mo hmo2 _ (h2 m2 hm2)⟩
          · exact Or.inr hcl

/-- `traceBack` preserves parent-closedness of the visited set. -/
theorem traceBack_preserves (A : Arena) (i : Nat) (hi : i < A.nodes.length)
    (v : Finset Nat) (hv : AncClosed A v) :
    AncClosed A (traceBack A i hi v).1 := by
  intro x hx
  rcases traceBack_closed A i hi v x hx with hxv | ⟨hxl, hcl⟩
  · obtain ⟨hxl, h⟩ := hv x hxv
    exact ⟨hxl, fun fa hfa => ⟨traceBack_subset A i hi v (h fa hfa).1,
      fun mo hmo => traceBack_subset A i hi v ((h fa hfa).2 mo hmo)⟩⟩
  · exact ⟨hxl, hcl⟩

/-- Invariant of the `write_sample_family` loop: the visited set is exactly
the (duplicate-free) visit log, is parent-closed, contains every processed
sample, and grows monotonically. -/
theorem traceAll_spec (A : Arena) :
    ∀ (samples : List (Fin A.nodes.length)) (v : Finset Nat) (l : List Nat),
      v = l.toFinset → l.Nodup → AncClosed A v →
      (traceAll A samples (v, l)).1 = (traceAll A samples (v, l)).2.toFinset ∧
      (traceAll A samples (v, l)).2.Nodup ∧
      AncClosed A (traceAll A samples (v, l)).1 ∧
      (∀ s ∈ samples, s.val ∈ (traceAll A samples (v, l)).1) ∧
      (∀ x ∈ v, x ∈ (traceAll A samples (v, l)).1) := by
  intro samples
  induction samples with
  | nil =>
    intro v l h1 h2 h3
    exact ⟨h1, h2, h3, by simp, fun x hx => hx⟩
  | cons s ss ih =>
    intro v l h1 h2 h3
    obtain ⟨hu, hn, hd, hroot, hb⟩ := traceBack_spec A s.val s.isLt v
    have h1' : (traceBack A s.val s.isLt v).1
        = (l ++ (traceBack A s.val s.isLt v).2).toFinset := by
      rw [hu, h1]
      simp [List.toFinset_append]
    have h2' : (l ++ (traceBack A s.val s.isLt v).2).Nodup := by
      refine List.Nodup.append h2 hn ?_
      intro a ha1 ha2
      exact hd a ha2 (h1 ▸ List.mem_toFinset.mpr ha1)
    have h3' : AncClosed A (traceBack A s.val s.isLt v).1 :=
      traceBack_preserves A s.val s.isLt v h3
    obtain ⟨g1, g2, g3, g4, g5⟩ := ih (traceBack A s.val s.isLt v).1
      (l ++ (traceBack A s.val s.isLt v).2) h1' h2' h3'
    have hstep : traceAll A (s :: ss) (v, l) = traceAll A ss
        ((traceBack A s.val s.isLt v).1,
          l ++ (traceBack A s.val s.isLt v).2) := rfl
    rw [hstep]
    refine ⟨g1, g2, g3, ?_, ?_⟩
    · intro t ht
      rcases List.mem_cons.mp ht with rfl | ht
      · exact g5 t.val hroot
      · exact g4 t ht
    · intro x hx
      exact g5 x (traceBack_subset A s.val s.isLt v hx)

/-- C9: running `trace_back` from every archived sample (over any
well-formed pedigree, however inbred) terminates — `traceBack` is a total
function, its recursion bounded because parents strictly precede children
and founders have no parent references — and visits each individual at most
once: the shared visit log is duplicate-free, the resulting `nodes` closure
is exactly the set of logged individuals, contains every sample, is closed
under parent references, and every member — in particular every shared
ancestor — appears exactly once in it. -/
theorem claim_C9 (A : Arena) (samples : List (Fin A.nodes.length)) :
    (traceAll A samples (∅, [])).2.Nodup ∧
    (traceAll A samples (∅, [])).1 = (traceAll A samples (∅, [])).2.toFinset ∧
    (∀ s ∈ samples, s.val ∈ (traceAll A samples (∅, [])).1) ∧
    (∀ x ∈ (traceAll A samples (∅, [])).1,
      ∃ hx : x < A.nodes.length,
        ∀ fa ∈ (A.nodes.get ⟨x, hx⟩).father,
          fa ∈ (traceAll A samples (∅, [])).1 ∧
          ∀ mo ∈ (A.nodes.get ⟨x, hx⟩).mother,
            mo ∈ (traceAll A samples (∅, [])).1) ∧
    (∀ x ∈ (traceAll A samples (∅, [])).1,
      (traceAll A samples (∅, [])).2.count x = 1) := by
  obtain ⟨g1, g2, g3, g4, g5⟩ := traceAll_spec A samples ∅ [] (by simp)
    List.nodup_nil (fun x hx => absurd hx (Finset.not_mem_empty x))
  refine ⟨g2, g1, g4, g3, ?_⟩
  intro x hx
  rw [g1] at hx
  exact List.count_eq_one_of_mem g2 (List.mem_toFinset.mp hx)

/-- The pedigree for the C9 witness: founders 0, 1, 4, 5; siblings
2 = (0,1) and 3 = (0,1); archived samples 6 = (2,4) and 7 = (3,5), which
share grandparents 0 and 1 through different parents. -/
def w9A : Arena :=
  ⟨[⟨none, none, 0, 0⟩, ⟨none, none, 0, 0⟩,
    ⟨some 0, some 1, 1, 0⟩, ⟨some 0, some 1, 1, 0⟩,
    ⟨none, none, 1, 0⟩, ⟨none, none, 1, 0⟩,
    ⟨some 2, some 4, 2, 0⟩, ⟨some 3, some 5, 2, 0⟩], by decide⟩

/-- The two archived samples of the C9 witness. -/
def w9samples : List (Fin w9A.nodes.length) := [⟨6, by decide⟩, ⟨7, by decide⟩]

/-- Witness for C9: on the concrete shared-grandparent pedigree, the shared
grandparent 0 is in the ancestor closure and appears exactly once in the
visit log, which is duplicate-free. -/
theorem claim_C9_witness :
    (0 : Nat) ∈ (traceAll w9A w9samples (∅, [])).1 ∧
    (traceAll w9A w9samples (∅, [])).2.count 0 = 1 ∧
    (traceAll w9A w9samples (∅, [])).2.Nodup := by
  have h := claim_C9 w9A w9samples
  have h6 : (6 : Nat) ∈ (traceAll w9A w9samples (∅, [])).1 :=
    h.2.2.1 ⟨6, by decide⟩ (by simp [w9samples])
  obtain ⟨hx6, hcl6⟩ := h.2.2.2.1 6 h6
  have h2m : (2 : Nat) ∈ (traceAll w9A w9samples (∅, [])).1 :=
    (hcl6 2 (Option.mem_def.mpr rfl)).1
  obtain ⟨hx2, hcl2⟩ := h.2.2.2.1 2 h2m
  have h0 : (0 : Nat) ∈ (traceAll w9A w9samples (∅, [])).1 :=
    (hcl2 0 (Option.mem_def.mpr rfl)).1
  exact ⟨h0, h.2.2.2.2 0 h0, h.1⟩

/-- Witness for C10 at `n = 5`, `i = 1`. -/
theorem claim_C10_witness :
    (populationInit 5).males.length = 5 / 2 ∧
      (indOf (populationInit 5).arena 1).father = some 0 := by
  refine ⟨(claim_C10 5).1, ?_⟩
  exact ((claim_C10 5).2.2.2.1 1 (by decide)).1

end Blackthunnus
